import Mathlib

/-!
ICA callback handlers of `x/stakeibc` (Stride).

A shallow embedding of `x/stakeibc/keeper/icacallbacks.go`: the callback
registry and the delegation and redemption acknowledgment handlers, run against
an explicit ledger store; and of the parameter validators of
`x/stakeibc/types/params.go`.

* Go `error` results are `Option Error` (`none` is `nil`), paired with the
  store the call leaves behind.
* `int64` arithmetic wraps modulo `2^64` (`addInt64`), `cast.ToInt64` of a
  `uint64` is the two's-complement reinterpretation (`ToInt64`).
* Logging has no effect on the ledger and is left out.
-/

namespace Stakeibc

/-! ## Data model -/

/-- Go `[]byte`: a list of byte values. -/
abbrev Bytes := List Nat

/-- Error registry entries used by the handlers, plus the codec's own errors. -/
inductive ErrKind where
  | ErrInvalidRequest
  | ErrLogic
  | ErrValidatorDelegationChg
  | ErrRecordNotFound
  | ErrProto
deriving DecidableEq, Repr

/-- A Go `error`: a registered kind wrapped with a message. -/
structure Error where
  kind : ErrKind
  msg : String
deriving DecidableEq, Repr

/-- The error built by `sdkerrors.Wrap` and `sdkerrors.Wrapf`. -/
def Wrap (kind : ErrKind) (msg : String) : Error := ⟨kind, msg⟩

/-- The packet (`channeltypes.Packet`); the handlers only log it. -/
structure Packet where
  sequence : Nat
  sourceChannel : String
  data : Bytes
deriving DecidableEq, Repr

/-- The acknowledgment result (`channeltypes.Acknowledgement_Result`); a nil
pointer is `none`. -/
structure AckResult where
  result : Bytes
deriving DecidableEq, Repr

/-- Modelled from the spec: a validator of a host zone (the type declaration is
not among the sources), with its individual delegated amount. -/
structure Validator where
  address : String
  delegationAmt : Nat
deriving DecidableEq, Repr

/-- Modelled from the spec: `types.HostZone` (the type declaration is not among
the sources): identifier, validators with individual delegated amounts,
aggregate staked balance. The balance is an `int64`: the handler adds an `int64`
to it with `+=`. -/
structure HostZone where
  chainId : String
  validators : List Validator
  stakedBal : Int
deriving DecidableEq, Repr

/-- Modelled from the spec: `types.SplitDelegation` (the type declaration is not
among the sources): a target validator and an unsigned 64-bit amount. -/
structure SplitDelegation where
  validator : String
  amount : Nat
deriving DecidableEq, Repr

/-- Modelled from the spec: `types.DelegateCallback` (the type declaration is not
among the sources), the argument structure of the delegation handler; the
deposit record id is an unsigned 64-bit integer. -/
structure types.DelegateCallback where
  hostZoneId : String
  depositRecordId : Nat
  splitDelegations : List SplitDelegation
deriving DecidableEq, Repr

/-- Modelled from the spec: `types.RedemptionCallback` (the type declaration is
not among the sources), the argument structure of the redemption handler. -/
structure types.RedemptionCallback where
  userRedemptionRecordId : Nat
deriving DecidableEq, Repr

/-- Modelled from the spec: a user redemption record as the records keeper hands
it out (the type declaration is not among the sources): a numeric id, the
claimable flag, and the withdrawal it stands for. -/
structure UserRedemptionRecord where
  id : Nat
  receiver : String
  amount : Nat
  isClaimable : Bool
deriving DecidableEq, Repr

/-! ## Ledger store

The store is keyed by identifier, and an entity is always written under its own
identifier, so the stored value is the entity without its key. -/

/-- Stored value of a host zone (its key is the chain id). -/
structure HostZoneRow where
  validators : List Validator
  stakedBal : Int
deriving DecidableEq, Repr

/-- Modelled from the spec: the stored value of a deposit record (its key is the
record id): funds earmarked for delegation on a host zone. -/
structure DepositRecord where
  amount : Int
  hostZoneId : String
deriving DecidableEq, Repr

/-- Stored value of a user redemption record (its key is the record id). -/
structure UserRedemptionRow where
  receiver : String
  amount : Nat
  isClaimable : Bool
deriving DecidableEq, Repr

/-- The ledger store reached through `sdk.Context`. -/
structure Store where
  hostZones : String → Option HostZoneRow
  depositRecords : Nat → Option DepositRecord
  userRedemptionRecords : Nat → Option UserRedemptionRow

/-- Modelled from the spec: `Keeper.GetHostZone` (its source is not among the
sources), "get host zone by id". -/
def GetHostZone (ctx : Store) (chainId : String) : Option HostZone :=
  (ctx.hostZones chainId).map fun r => ⟨chainId, r.validators, r.stakedBal⟩

/-- Modelled from the spec: `Keeper.SetHostZone`, "set host zone by id"; the id
is the zone's own identifier. -/
def SetHostZone (ctx : Store) (zone : HostZone) : Store :=
  let row : HostZoneRow := ⟨zone.validators, zone.stakedBal⟩
  { ctx with hostZones := Function.update ctx.hostZones zone.chainId (some row) }

/-- Modelled from the spec: `RecordsKeeper.RemoveDepositRecord`, "remove deposit
record by id". -/
def RemoveDepositRecord (ctx : Store) (id : Nat) : Store :=
  { ctx with depositRecords := Function.update ctx.depositRecords id none }

/-- Modelled from the spec: `RecordsKeeper.GetUserRedemptionRecord`, "get user
redemption record by id". -/
def GetUserRedemptionRecord (ctx : Store) (id : Nat) : Option UserRedemptionRecord :=
  (ctx.userRedemptionRecords id).map fun r => ⟨id, r.receiver, r.amount, r.isClaimable⟩

/-- Modelled from the spec: `RecordsKeeper.SetUserRedemptionRecord`, "set user
redemption record by id"; the id is the record's own identifier. -/
def SetUserRedemptionRecord (ctx : Store) (record : UserRedemptionRecord) : Store :=
  let row : UserRedemptionRow := ⟨record.receiver, record.amount, record.isClaimable⟩
  { ctx with userRedemptionRecords := Function.update ctx.userRedemptionRecords record.id (some row) }

/-- Modelled from the spec: `RecordsKeeper.RemoveUserRedemptionRecord`, "remove
user redemption record by id". -/
def RemoveUserRedemptionRecord (ctx : Store) (id : Nat) : Store :=
  { ctx with userRedemptionRecords := Function.update ctx.userRedemptionRecords id none }

/-! ## Machine integers -/

/-- The conversion `cast.ToInt64` on a `uint64`: Go's `int64(u)`, so that values
from `2^63` on become negative. -/
def ToInt64 (u : Nat) : Int :=
  if u % 2 ^ 64 < 2 ^ 63 then ((u % 2 ^ 64 : Nat) : Int) else ((u % 2 ^ 64 : Nat) : Int) - 2 ^ 64

/-- The conversion `cast.ToUint64` on a `uint64` record id: the identity. -/
def ToUint64 (u : Nat) : Nat := u

/-- Go `int64` addition: the sum reduced to `[-2^63, 2^63)`. -/
def addInt64 (a b : Int) : Int := Int.bmod (a + b) (2 ^ 64)

/-! ## Per-validator ledger update -/

/-- Add `amt` to the first validator named `valAddr`; `none` when no validator
has that address. -/
def addToValidator : List Validator → String → Nat → Option (List Validator)
  | [], _, _ => none
  | v :: vs, valAddr, amt =>
    if v.address = valAddr then
      some ({ v with delegationAmt := v.delegationAmt + amt } :: vs)
    else
      (addToValidator vs valAddr amt).map fun vs1 => v :: vs1

/-- Modelled from the spec: `Keeper.AddDelegationToValidator` (its source is not
among the sources): add the amount to the named validator's delegated
amount within the zone; a validator that is not in the zone's validator set is a
failure reported by the update. Returns the zone as updated and the success
flag. -/
def AddDelegationToValidator (hostZone : HostZone) (valAddr : String) (amt : Int) :
    HostZone × Bool :=
  match addToValidator hostZone.validators valAddr amt.toNat with
  | some vs => ({ hostZone with validators := vs }, true)
  | none => (hostZone, false)

/-! ## Codec -/

/-- The byte codec the keeper decodes callback arguments with: `proto.Unmarshal`
into a fresh message of each type. For a `DelegateCallback` the result is the
decoded message or the error. For a `RedemptionCallback` it is the contents of
the message after the call together with the error (`none` for `nil`), because
the caller keeps the message also when the call fails. -/
structure Codec where
  unmarshalDelegateCallback : Bytes → Except Error types.DelegateCallback
  unmarshalRedemptionCallback : Bytes → types.RedemptionCallback × Option Error

/-- The keeper: the collaborators the handlers reach through `k`. -/
structure Keeper where
  proto : Codec

/-! ## Protobuf wire format

A concrete codec: the wire-format decoders of the two argument messages
(`DelegateCallback`: `hostZoneId = 1` string, `depositRecordId = 2` varint,
`splitDelegations = 3` repeated message with `validator = 1` string and
`amount = 2` varint; `RedemptionCallback`: `userRedemptionRecordId = 1`
varint). -/

/-- An error of the codec. -/
def protoErr (msg : String) : Error := ⟨.ErrProto, msg⟩

/-- Go `string(bytes)`: one character per byte. -/
def goString (bs : Bytes) : String := String.mk (bs.map Char.ofNat)

/-- Read a base-128 varint into a `uint64`. Returns the bits accumulated so far
and, when the varint is complete, the remaining input. -/
def readVarint : Nat → Nat → Bytes → Nat × Option Bytes
  | _, acc, [] => (acc, none)
  | shift, acc, b :: bs =>
    if 64 ≤ shift then (acc, none)
    else
      let acc1 := (acc ||| ((b &&& 0x7F) <<< shift)) % 2 ^ 64
      if b < 0x80 then (acc1, some bs) else readVarint (shift + 7) acc1 bs

/-- Read a field tag: field number (an `int32`, to be positive) and wire type
(not end-group), with the remaining input. -/
def readTag (bs : Bytes) : Except Error (Nat × Nat × Bytes) :=
  match readVarint 0 0 bs with
  | (_, none) => .error (protoErr "unexpected EOF")
  | (wire, some rest) =>
    let fieldNum := (wire >>> 3) % 2 ^ 32
    let wireType := wire &&& 0x7
    if wireType = 4 then .error (protoErr "wiretype end group for non-group")
    else if fieldNum = 0 ∨ 2 ^ 31 ≤ fieldNum then .error (protoErr "illegal tag")
    else .ok (fieldNum, wireType, rest)

/-- Read a length-delimited payload: the payload and the remaining input. -/
def readLengthDelimited (bs : Bytes) : Except Error (Bytes × Bytes) :=
  match readVarint 0 0 bs with
  | (_, none) => .error (protoErr "unexpected EOF")
  | (len, some rest) =>
    if 2 ^ 63 ≤ len then .error (protoErr "negative length found during unmarshaling")
    else if rest.length < len then .error (protoErr "unexpected EOF")
    else .ok (rest.take len, rest.drop len)

/-- Skip one field (with nested groups), starting at its tag: the remaining
input. -/
def skipCallbacks : Nat → Nat → Bytes → Except Error Bytes
  | 0, _, _ => .error (protoErr "unexpected EOF")
  | fuel + 1, depth, bs =>
    match readVarint 0 0 bs with
    | (_, none) => .error (protoErr "unexpected EOF")
    | (wire, some rest) =>
      let next (depth1 : Nat) (rest1 : Bytes) : Except Error Bytes :=
        if depth1 = 0 then .ok rest1 else skipCallbacks fuel depth1 rest1
      match wire &&& 0x7 with
      | 0 =>
        match readVarint 0 0 rest with
        | (_, none) => .error (protoErr "unexpected EOF")
        | (_, some rest1) => next depth rest1
      | 1 =>
        if rest.length < 8 then .error (protoErr "unexpected EOF") else next depth (rest.drop 8)
      | 2 =>
        match readLengthDelimited rest with
        | .error err => .error err
        | .ok (_, rest1) => next depth rest1
      | 3 => next (depth + 1) rest
      | 4 =>
        if depth = 0 then .error (protoErr "unexpected end of group") else next (depth - 1) rest
      | 5 =>
        if rest.length < 4 then .error (protoErr "unexpected EOF") else next depth (rest.drop 4)
      | _ => .error (protoErr "illegal wireType")

/-- The field loop of `SplitDelegation.Unmarshal`, `m` the message so far. -/
def unmarshalSplitDelegation : Nat → SplitDelegation → Bytes → Except Error SplitDelegation
  | 0, m, _ => .ok m
  | _ + 1, m, [] => .ok m
  | fuel + 1, m, b :: bs =>
    match readTag (b :: bs) with
    | .error err => .error err
    | .ok (1, wireType, rest) =>
      if wireType ≠ 2 then .error (protoErr "wrong wireType for field Validator")
      else
        match readLengthDelimited rest with
        | .error err => .error err
        | .ok (payload, rest1) =>
          unmarshalSplitDelegation fuel { m with validator := goString payload } rest1
    | .ok (2, wireType, rest) =>
      if wireType ≠ 0 then .error (protoErr "wrong wireType for field Amount")
      else
        match readVarint 0 0 rest with
        | (_, none) => .error (protoErr "unexpected EOF")
        | (v, some rest1) => unmarshalSplitDelegation fuel { m with amount := v } rest1
    | .ok (_, _, _) =>
      match skipCallbacks (bs.length + 1) 0 (b :: bs) with
      | .error err => .error err
      | .ok rest1 => unmarshalSplitDelegation fuel m rest1

/-- The field loop of `DelegateCallback.Unmarshal`, `m` the message so far. -/
def unmarshalDelegateCallback :
    Nat → types.DelegateCallback → Bytes → Except Error types.DelegateCallback
  | 0, m, _ => .ok m
  | _ + 1, m, [] => .ok m
  | fuel + 1, m, b :: bs =>
    match readTag (b :: bs) with
    | .error err => .error err
    | .ok (1, wireType, rest) =>
      if wireType ≠ 2 then .error (protoErr "wrong wireType for field HostZoneId")
      else
        match readLengthDelimited rest with
        | .error err => .error err
        | .ok (payload, rest1) =>
          unmarshalDelegateCallback fuel { m with hostZoneId := goString payload } rest1
    | .ok (2, wireType, rest) =>
      if wireType ≠ 0 then .error (protoErr "wrong wireType for field DepositRecordId")
      else
        match readVarint 0 0 rest with
        | (_, none) => .error (protoErr "unexpected EOF")
        | (v, some rest1) => unmarshalDelegateCallback fuel { m with depositRecordId := v } rest1
    | .ok (3, wireType, rest) =>
      if wireType ≠ 2 then .error (protoErr "wrong wireType for field SplitDelegations")
      else
        match readLengthDelimited rest with
        | .error err => .error err
        | .ok (payload, rest1) =>
          match unmarshalSplitDelegation (payload.length + 1) ⟨"", 0⟩ payload with
          | .error err => .error err
          | .ok sd =>
            unmarshalDelegateCallback fuel
              { m with splitDelegations := m.splitDelegations ++ [sd] } rest1
    | .ok (_, _, _) =>
      match skipCallbacks (bs.length + 1) 0 (b :: bs) with
      | .error err => .error err
      | .ok rest1 => unmarshalDelegateCallback fuel m rest1

/-- The field loop of `RedemptionCallback.Unmarshal`, `m` the message so far. The
message is returned as the call leaves it, also when it fails. -/
def unmarshalRedemptionCallback :
    Nat → types.RedemptionCallback → Bytes → types.RedemptionCallback × Option Error
  | 0, m, _ => (m, none)
  | _ + 1, m, [] => (m, none)
  | fuel + 1, m, b :: bs =>
    match readTag (b :: bs) with
    | .error err => (m, some err)
    | .ok (1, wireType, rest) =>
      if wireType ≠ 0 then (m, some (protoErr "wrong wireType for field UserRedemptionRecordId"))
      else
        match readVarint 0 0 rest with
        | (v, none) => (⟨v⟩, some (protoErr "unexpected EOF"))
        | (v, some rest1) => unmarshalRedemptionCallback fuel ⟨v⟩ rest1
    | .ok (_, _, _) =>
      match skipCallbacks (bs.length + 1) 0 (b :: bs) with
      | .error err => (m, some err)
      | .ok rest1 => unmarshalRedemptionCallback fuel m rest1

/-- Modelled from the spec: the callback codec (an external collaborator),
instantiated with the protobuf wire format: `proto.Unmarshal` into a fresh
(zero) message. -/
def protoCodec : Codec where
  unmarshalDelegateCallback bs := unmarshalDelegateCallback (bs.length + 1) ⟨"", 0, []⟩ bs
  unmarshalRedemptionCallback bs := unmarshalRedemptionCallback (bs.length + 1) ⟨0⟩ bs

/-- A keeper decoding with the protobuf codec. -/
def protoKeeper : Keeper := ⟨protoCodec⟩

/-! ## Delegate callback -/

/-- The method `Keeper.UnmarshalDelegateCallbackArgs`: the decode error is
returned. -/
def Keeper.UnmarshalDelegateCallbackArgs (k : Keeper) (delegateCallback : Bytes) :
    Except Error types.DelegateCallback :=
  match k.proto.unmarshalDelegateCallback delegateCallback with
  | .error err => .error err
  | .ok unmarshalledDelegateCallback => .ok unmarshalledDelegateCallback

/-- The `for ... range delegateCallback.SplitDelegations` loop of
`DelegateCallback`: `zone` is the handler's local copy, `ctx` the store. The
result is the error that ended the loop early (if any) and the store. -/
def delegateLoop (ctx : Store) (zone : HostZone) : List SplitDelegation → Option Error × Store
  | [] => (none, ctx)
  | splitDelegation :: rest =>
    let amount := ToInt64 splitDelegation.amount
    let validator := splitDelegation.validator
    if amount < 0 then
      (some (Wrap .ErrLogic ("Balance to stake was negative: " ++ toString amount)), ctx)
    else
      let zone1 := { zone with stakedBal := addInt64 zone.stakedBal amount }
      match AddDelegationToValidator zone1 validator amount with
      | (_, false) =>
        (some (Wrap .ErrValidatorDelegationChg "Failed to add delegation to validator"), ctx)
      | (zone2, true) => delegateLoop (SetHostZone ctx zone2) zone2 rest

/-- The delegation handler `DelegateCallback`: the error it returns (`none` for
`nil`) and the store it leaves. -/
def DelegateCallback (k : Keeper) (ctx : Store) (_packet : Packet) (ack : Option AckResult)
    (args : Bytes) : Option Error × Store :=
  match ack with
  | none => (some (Wrap .ErrInvalidRequest "ack is nil"), ctx)
  | some _ =>
    match k.UnmarshalDelegateCallbackArgs args with
    | .error err => (some err, ctx)
    | .ok delegateCallback =>
      let hostZone := delegateCallback.hostZoneId
      match GetHostZone ctx hostZone with
      | none => (some (Wrap .ErrInvalidRequest "host zone not found"), ctx)
      | some zone =>
        let recordId := delegateCallback.depositRecordId
        match delegateLoop ctx zone delegateCallback.splitDelegations with
        | (some err, ctx1) => (some err, ctx1)
        | (none, ctx1) => (none, RemoveDepositRecord ctx1 (ToUint64 recordId))

/-! ## Redemption callback -/

/-- The method `Keeper.UnmarshalRedemptionCallbackArgs`: the decode error is logged and the
message is returned as `proto.Unmarshal` left it. -/
def Keeper.UnmarshalRedemptionCallbackArgs (k : Keeper) (redemptionCallback : Bytes) :
    types.RedemptionCallback :=
  (k.proto.unmarshalRedemptionCallback redemptionCallback).1

/-- The redemption handler `Keeper.RedemptionCallback`: the error it returns
(`none` for `nil`) and the store it leaves. -/
def RedemptionCallback (k : Keeper) (ctx : Store) (_packet : Packet) (ack : Option AckResult)
    (args : Bytes) : Option Error × Store :=
  let redemptionCallback := k.UnmarshalRedemptionCallbackArgs args
  match GetUserRedemptionRecord ctx redemptionCallback.userRedemptionRecordId with
  | none => (some (Wrap .ErrRecordNotFound "user redemption record not found"), ctx)
  | some userRedemptionRecord =>
    match ack with
    | none =>
      let userRedemptionRecord := { userRedemptionRecord with isClaimable := true }
      (some (Wrap .ErrInvalidRequest "ack is nil"),
        SetUserRedemptionRecord ctx userRedemptionRecord)
    | some _ =>
      (none, RemoveUserRedemptionRecord ctx redemptionCallback.userRedemptionRecordId)

/-! ## Reference notions for the statements -/

/-- Delegated amount of the validator named `addr` (the first of that name),
`none` when the list has no such validator. -/
def delegatedAmt : List Validator → String → Option Nat
  | [], _ => none
  | v :: vs, addr => if v.address = addr then some v.delegationAmt else delegatedAmt vs addr

/-- Sum of the delegated amounts of all validators. -/
def totalDelegated (vs : List Validator) : Nat := (vs.map fun v => v.delegationAmt).sum

/-- Sum of the amounts of a split-delegation list. -/
def totalAmt (sds : List SplitDelegation) : Nat := (sds.map fun sd => sd.amount).sum

/-- Sum of the amounts the list assigns to the validator named `addr`. -/
def assignedAmt (sds : List SplitDelegation) (addr : String) : Nat :=
  ((sds.filter fun sd => sd.validator = addr).map fun sd => sd.amount).sum

/-- The addresses of a zone's validators, in order. -/
def HostZone.addresses (zone : HostZone) : List String := zone.validators.map fun v => v.address

/-- Reference: credit `amt` to the first validator named `addr`. -/
def creditValidator : List Validator → String → Nat → List Validator
  | [], _, _ => []
  | v :: vs, addr, amt =>
    if v.address = addr then { v with delegationAmt := v.delegationAmt + amt } :: vs
    else v :: creditValidator vs addr amt

/-- Reference: one split-delegation entry applied to a zone, as one step: the
amount goes to the aggregate staked balance (an `int64`) and to the validator. -/
def applyEntry (zone : HostZone) (sd : SplitDelegation) : HostZone :=
  { zone with
    stakedBal := addInt64 zone.stakedBal sd.amount
    validators := creditValidator zone.validators sd.validator sd.amount }

/-- Reference: the entries of a list applied to a zone in order. -/
def applyEntries (zone : HostZone) (sds : List SplitDelegation) : HostZone :=
  sds.foldl applyEntry zone

/-- The host zone invariant: the aggregate staked balance is the sum of the
delegated amounts of the validators. -/
def HostZone.balanced (zone : HostZone) : Prop :=
  zone.stakedBal = (totalDelegated zone.validators : Int)

/-- The amounts of the entries before the first negative one. -/
def creditedAmt (sds : List SplitDelegation) : Nat :=
  totalAmt (sds.takeWhile fun sd => decide (0 ≤ ToInt64 sd.amount))

/-- The zone after one entry that passes both checks, as the loop computes it
from the converted amount. -/
def stepZone (zone : HostZone) (sd : SplitDelegation) : HostZone :=
  { zone with
    stakedBal := addInt64 zone.stakedBal (ToInt64 sd.amount)
    validators := creditValidator zone.validators sd.validator (ToInt64 sd.amount).toNat }

instance (zone : HostZone) : Decidable zone.balanced :=
  inferInstanceAs (Decidable (zone.stakedBal = (totalDelegated zone.validators : Int)))

/-- The host zone values the loop of `DelegateCallback` hands to `SetHostZone`,
in order: one per entry that passes both checks, up to the first that fails. -/
def delegateLoopWrites (zone : HostZone) : List SplitDelegation → List HostZone
  | [] => []
  | splitDelegation :: rest =>
    let amount := ToInt64 splitDelegation.amount
    if amount < 0 then []
    else
      let zone1 := { zone with stakedBal := addInt64 zone.stakedBal amount }
      match AddDelegationToValidator zone1 splitDelegation.validator amount with
      | (_, false) => []
      | (zone2, true) => zone2 :: delegateLoopWrites zone2 rest

/-! ## Sample inputs -/

/-- A packet. -/
def samplePacket : Packet := ⟨1, "channel-0", []⟩

/-- A non-nil acknowledgment result. -/
def sampleAck : AckResult := ⟨[1]⟩

/-- Zone `GAIA` with two validators, balance 100. -/
def sampleZone : HostZone := ⟨"GAIA", [⟨"val1", 60⟩, ⟨"val2", 40⟩], 100⟩

/-- A store holding `sampleZone`, deposit record 1 and user redemption record 7. -/
def sampleStore : Store where
  hostZones id := if id = "GAIA" then some ⟨[⟨"val1", 60⟩, ⟨"val2", 40⟩], 100⟩ else none
  depositRecords id := if id = 1 then some ⟨15, "GAIA"⟩ else none
  userRedemptionRecords id := if id = 7 then some ⟨"alice", 10, false⟩ else none

/-- Wire bytes of `{GAIA, 1, [(val1, 5), (val2, 3), (val1, 7)]}`. -/
def sampleArgs : Bytes :=
  [0x0A, 4, 71, 65, 73, 65, 0x10, 1,
   0x1A, 8, 0x0A, 4, 118, 97, 108, 49, 0x10, 5,
   0x1A, 8, 0x0A, 4, 118, 97, 108, 50, 0x10, 3,
   0x1A, 8, 0x0A, 4, 118, 97, 108, 49, 0x10, 7]

/-- The message `sampleArgs` decodes to. -/
def sampleCallback : types.DelegateCallback :=
  ⟨"GAIA", 1, [⟨"val1", 5⟩, ⟨"val2", 3⟩, ⟨"val1", 7⟩]⟩

/-- Wire bytes of `{GAIA, 1, [(val1, 5), (val2, 2^63), (val1, 7)]}`: the second
amount is negative as an `int64`. -/
def negativeArgs : Bytes :=
  [0x0A, 4, 71, 65, 73, 65, 0x10, 1,
   0x1A, 8, 0x0A, 4, 118, 97, 108, 49, 0x10, 5,
   0x1A, 17, 0x0A, 4, 118, 97, 108, 50, 0x10,
     0x80, 0x80, 0x80, 0x80, 0x80, 0x80, 0x80, 0x80, 0x80, 0x01,
   0x1A, 8, 0x0A, 4, 118, 97, 108, 49, 0x10, 7]

/-- The message `negativeArgs` decodes to. -/
def negativeCallback : types.DelegateCallback :=
  ⟨"GAIA", 1, [⟨"val1", 5⟩, ⟨"val2", 9223372036854775808⟩, ⟨"val1", 7⟩]⟩

/-- Wire bytes of `{GAIA, 1, [(val1, 5), (val3, 3), (val1, 7)]}`: `val3` is not a
validator of the zone. -/
def unknownArgs : Bytes :=
  [0x0A, 4, 71, 65, 73, 65, 0x10, 1,
   0x1A, 8, 0x0A, 4, 118, 97, 108, 49, 0x10, 5,
   0x1A, 8, 0x0A, 4, 118, 97, 108, 51, 0x10, 3,
   0x1A, 8, 0x0A, 4, 118, 97, 108, 49, 0x10, 7]

/-- The message `unknownArgs` decodes to. -/
def unknownCallback : types.DelegateCallback :=
  ⟨"GAIA", 1, [⟨"val1", 5⟩, ⟨"val3", 3⟩, ⟨"val1", 7⟩]⟩

/-- Wire bytes of the redemption callback `{7}`. -/
def redemptionArgs : Bytes := [0x08, 7]

/-- Wire bytes of the redemption callback `{9}`; the sample store has no record 9. -/
def missingRedemptionArgs : Bytes := [0x08, 9]

/-- Zone `GAIA` at the top of the `int64` range: balance and the one validator's
delegation are both `2^63 - 1`. -/
def fullZone : HostZone :=
  ⟨"GAIA", [⟨"val1", 9223372036854775807⟩], 9223372036854775807⟩

/-- A store holding `fullZone` and deposit record 1. -/
def fullStore : Store where
  hostZones id :=
    if id = "GAIA" then some ⟨[⟨"val1", 9223372036854775807⟩], 9223372036854775807⟩ else none
  depositRecords id := if id = 1 then some ⟨1, "GAIA"⟩ else none
  userRedemptionRecords _ := none

/-- Wire bytes of `{GAIA, 1, [(val1, 1)]}`. -/
def oneArgs : Bytes :=
  [0x0A, 4, 71, 65, 73, 65, 0x10, 1, 0x1A, 8, 0x0A, 4, 118, 97, 108, 49, 0x10, 1]

/-- Argument bytes that are no `RedemptionCallback`: the tag of field 1 with
the varint missing. -/
def truncatedArgs : Bytes := [0x08]

/-- A store holding the user redemption record with id 0. -/
def zeroRecordStore : Store where
  hostZones _ := none
  depositRecords _ := none
  userRedemptionRecords id := if id = 0 then some ⟨"alice", 10, false⟩ else none

/-! ## Callback registry -/

/-- The handler type `ICACallback`: a function of the keeper, the context (the
store), the packet, the acknowledgment result and the argument bytes, returning
an error. A handler here is a function value that is not nil. -/
abbrev ICACallback :=
  Keeper → Store → Packet → Option AckResult → Bytes → Option Error × Store

/-- The registry `ICACallbacks`: the keeper and the map from identifier to
handler (`none` where the Go map has no entry). -/
structure ICACallbacks where
  k : Keeper
  icacallbacks : String → Option ICACallback

/-- How a dispatch ends: the handler returned (its error and the store it
left), or the call panicked before any handler ran (with the store as it was). -/
inductive CallResult where
  | returned (err : Option Error) (ctx : Store)
  | panicked (ctx : Store)

/-- The constructor `Keeper.ICACallbackHandler`: a registry with an empty map. -/
def Keeper.ICACallbackHandler (k : Keeper) : ICACallbacks := ⟨k, fun _ => none⟩

/-- The dispatcher `ICACallbacks.CallICACallback`: the map is indexed and the
value called. Indexing with an identifier that has no entry yields the nil
function, and calling it panics. -/
def ICACallbacks.CallICACallback (c : ICACallbacks) (ctx : Store) (id : String)
    (packet : Packet) (ack : Option AckResult) (args : Bytes) : CallResult :=
  match c.icacallbacks id with
  | none => .panicked ctx
  | some fn => .returned (fn c.k ctx packet ack args).1 (fn c.k ctx packet ack args).2

/-- The lookup `ICACallbacks.HasICACallback`. -/
def ICACallbacks.HasICACallback (c : ICACallbacks) (id : String) : Bool :=
  match c.icacallbacks id with
  | none => false
  | some _ => true

/-- The registration `ICACallbacks.AddICACallback`: the map entry for `id` is
set (inserted or overwritten) and the registry returned. The Go map is shared
between the receiver and the result; the registry returned here is that state
of the map. The argument is a handler: the type assertion `fn.(ICACallback)`
holds. -/
def ICACallbacks.AddICACallback (c : ICACallbacks) (id : String) (fn : ICACallback) :
    ICACallbacks :=
  { c with icacallbacks := Function.update c.icacallbacks id (some fn) }

/-- The wiring `ICACallbacks.RegisterICACallbacks`: `"delegate"` is registered
first, with the function `DelegateCallback`, then `"redemption"`, with the
package-level identifier `RedemptionCallback`. The sources declare no
package-level function of that name: `RedemptionCallback` is declared only as a
method of the keeper. What the identifier denotes is therefore the parameter
`redemptionCallback`. -/
def ICACallbacks.RegisterICACallbacks (c : ICACallbacks) (redemptionCallback : ICACallback) :
    ICACallbacks :=
  (c.AddICACallback "delegate" DelegateCallback).AddICACallback "redemption" redemptionCallback

/-! ## Parameters -/

/-- A Go `interface{}` value as a parameter validator receives it: a `uint64`,
or a value of another type (named by `%T`). -/
inductive GoValue where
  | uint64 (v : Nat)
  | other (typeName : String)
deriving DecidableEq, Repr

/-- The default `DefaultStrideCommission`: the commission times 100. -/
def DefaultStrideCommission : Nat := 10

/-- The validator `isPositive`: the error message, `none` for `nil`. -/
def isPositive (i : GoValue) : Option String :=
  match i with
  | .other typeName => some ("parameter not accepted: " ++ typeName)
  | .uint64 ival =>
    if ival ≤ 0 then some ("parameter must be positive: " ++ toString ival)
    else none

/-- The validator `isCommission`: the error message, `none` for `nil`. -/
def isCommission (i : GoValue) : Option String :=
  match i with
  | .other typeName => some ("commission not accepted: " ++ typeName)
  | .uint64 ival =>
    if ival < 0 then some ("commission must be non-negative: " ++ toString ival)
    else if ival > 100 then some ("commission must be less than 100: " ++ toString ival)
    else none

/-! ## Further sample inputs -/

/-- A store whose user redemption record 7 is already claimable. -/
def claimableStore : Store where
  hostZones _ := none
  depositRecords _ := none
  userRedemptionRecords id := if id = 7 then some ⟨"alice", 10, true⟩ else none

/-- A handler that always succeeds and leaves the store alone. -/
def okHandler : ICACallback := fun _ ctx _ _ _ => (none, ctx)

/-- A handler that always fails and leaves the store alone. -/
def failHandler : ICACallback := fun _ ctx _ _ _ => (some (Wrap .ErrLogic "fail"), ctx)

/-- Wire bytes of `{OSMO, 1, []}`; the sample store has no zone `OSMO`. -/
def noZoneArgs : Bytes := [0x0A, 4, 79, 83, 77, 79, 0x10, 1]

/-! ## Machine integer lemmas -/

theorem ToInt64_of_lt {u : Nat} (h : u < 2 ^ 63) : ToInt64 u = (u : Int) := by
  have h1 : u % 2 ^ 64 = u := Nat.mod_eq_of_lt (by omega)
  unfold ToInt64
  rw [h1, if_pos h]

theorem ToInt64_nonneg_iff {u : Nat} (h : u < 2 ^ 64) : 0 ≤ ToInt64 u ↔ u < 2 ^ 63 := by
  have h1 : u % 2 ^ 64 = u := Nat.mod_eq_of_lt h
  unfold ToInt64
  rw [h1]
  split <;> omega

theorem addInt64_addInt64 (a b c : Int) : addInt64 (addInt64 a b) c = addInt64 a (b + c) := by
  unfold addInt64
  rw [Int.bmod_add_bmod_congr, Int.add_assoc]

theorem addInt64_of_range {a b : Int} (h1 : -(2 ^ 63) ≤ a + b) (h2 : a + b < 2 ^ 63) :
    addInt64 a b = a + b := by
  unfold addInt64
  rw [Int.bmod_def]
  have h3 : ((2 ^ 64 : Nat) : Int) = 2 ^ 64 := by norm_num
  rw [h3]
  split <;> omega

/-! ## Store lemmas -/

theorem GetHostZone_SetHostZone (ctx : Store) (zone : HostZone) :
    GetHostZone (SetHostZone ctx zone) zone.chainId = some zone := by
  simp [GetHostZone, SetHostZone]

theorem GetHostZone_SetHostZone_ne (ctx : Store) (zone : HostZone) {id : String}
    (h : id ≠ zone.chainId) : GetHostZone (SetHostZone ctx zone) id = GetHostZone ctx id := by
  simp [GetHostZone, SetHostZone, Function.update_noteq h]

theorem SetHostZone_self {ctx : Store} {zone : HostZone}
    (h : GetHostZone ctx zone.chainId = some zone) : SetHostZone ctx zone = ctx := by
  have h1 : ctx.hostZones zone.chainId = some ⟨zone.validators, zone.stakedBal⟩ := by
    unfold GetHostZone at h
    cases hr : ctx.hostZones zone.chainId with
    | none => rw [hr] at h; simp at h
    | some r =>
      rw [hr] at h
      simp only [Option.map_some', Option.some.injEq] at h
      rw [← h]
  unfold SetHostZone
  simp only
  rw [← h1, Function.update_eq_self]

theorem SetHostZone_SetHostZone (ctx : Store) {z1 z2 : HostZone} (h : z1.chainId = z2.chainId) :
    SetHostZone (SetHostZone ctx z1) z2 = SetHostZone ctx z2 := by
  unfold SetHostZone
  simp only [h, Function.update_idem]

theorem GetHostZone_chainId {ctx : Store} {id : String} {zone : HostZone}
    (h : GetHostZone ctx id = some zone) : zone.chainId = id := by
  unfold GetHostZone at h
  cases hr : ctx.hostZones id with
  | none => rw [hr] at h; simp at h
  | some r =>
    rw [hr] at h
    simp only [Option.map_some', Option.some.injEq] at h
    rw [← h]

/-! ## Validator update lemmas -/

theorem addToValidator_of_mem {vs : List Validator} {addr : String} (amt : Nat)
    (h : addr ∈ vs.map fun v => v.address) :
    addToValidator vs addr amt = some (creditValidator vs addr amt) := by
  induction vs with
  | nil => simp at h
  | cons v vs ih =>
    by_cases hv : v.address = addr
    · simp [addToValidator, creditValidator, hv]
    · have h1 : addr ∈ vs.map fun v => v.address := by
        simp only [List.map_cons, List.mem_cons] at h
        rcases h with h | h
        · exact absurd h.symm hv
        · exact h
      simp [addToValidator, creditValidator, hv, ih h1]

theorem addToValidator_of_not_mem {vs : List Validator} {addr : String} (amt : Nat)
    (h : addr ∉ vs.map fun v => v.address) : addToValidator vs addr amt = none := by
  induction vs with
  | nil => rfl
  | cons v vs ih =>
    simp only [List.map_cons, List.mem_cons, not_or] at h
    have hv : ¬ v.address = addr := fun e => h.1 e.symm
    simp [addToValidator, hv, ih h.2]

theorem creditValidator_addresses (vs : List Validator) (addr : String) (amt : Nat) :
    ((creditValidator vs addr amt).map fun v => v.address) = vs.map fun v => v.address := by
  induction vs with
  | nil => rfl
  | cons v vs ih =>
    by_cases hv : v.address = addr
    · simp [creditValidator, hv]
    · simp [creditValidator, hv, ih]

theorem delegatedAmt_creditValidator (vs : List Validator) (a : String) (amt : Nat) (b : String) :
    delegatedAmt (creditValidator vs a amt) b =
      if b = a then (delegatedAmt vs b).map (fun d => d + amt) else delegatedAmt vs b := by
  induction vs with
  | nil => simp [creditValidator, delegatedAmt]
  | cons v vs ih =>
    by_cases hv : v.address = a
    · by_cases hb : b = a
      · simp [creditValidator, delegatedAmt, hv, hb]
      · have hab : ¬ a = b := fun e => hb e.symm
        simp [creditValidator, delegatedAmt, hv, hb, hab]
    · by_cases hvb : v.address = b
      · have hb : ¬ b = a := fun e => hv (hvb.trans e)
        simp [creditValidator, delegatedAmt, hv, hb, hvb]
      · simp [creditValidator, delegatedAmt, hv, hvb, ih]

theorem totalDelegated_creditValidator {vs : List Validator} {addr : String} (amt : Nat)
    (h : addr ∈ vs.map fun v => v.address) :
    totalDelegated (creditValidator vs addr amt) = totalDelegated vs + amt := by
  induction vs with
  | nil => simp at h
  | cons v vs ih =>
    by_cases hv : v.address = addr
    · simp [creditValidator, totalDelegated, hv]
      omega
    · have h1 : addr ∈ vs.map fun v => v.address := by
        simp only [List.map_cons, List.mem_cons] at h
        rcases h with h | h
        · exact absurd h.symm hv
        · exact h
      have ih1 := ih h1
      simp only [totalDelegated] at ih1
      simp [creditValidator, totalDelegated, hv, ih1]
      omega

/-! ## Reference application lemmas -/

theorem applyEntries_cons (zone : HostZone) (sd : SplitDelegation) (sds : List SplitDelegation) :
    applyEntries zone (sd :: sds) = applyEntries (applyEntry zone sd) sds := rfl

theorem applyEntry_addresses (zone : HostZone) (sd : SplitDelegation) :
    (applyEntry zone sd).addresses = zone.addresses :=
  creditValidator_addresses zone.validators sd.validator sd.amount

theorem applyEntries_chainId (zone : HostZone) (sds : List SplitDelegation) :
    (applyEntries zone sds).chainId = zone.chainId := by
  induction sds generalizing zone with
  | nil => rfl
  | cons sd sds ih => rw [applyEntries_cons, ih]; rfl

theorem applyEntries_addresses (zone : HostZone) (sds : List SplitDelegation) :
    (applyEntries zone sds).addresses = zone.addresses := by
  induction sds generalizing zone with
  | nil => rfl
  | cons sd sds ih => rw [applyEntries_cons, ih, applyEntry_addresses]

theorem totalAmt_cons (sd : SplitDelegation) (sds : List SplitDelegation) :
    totalAmt (sd :: sds) = sd.amount + totalAmt sds := by
  simp [totalAmt]

theorem applyEntries_stakedBal (zone : HostZone) (sd : SplitDelegation)
    (sds : List SplitDelegation) :
    (applyEntries zone (sd :: sds)).stakedBal =
      Int.bmod (zone.stakedBal + (totalAmt (sd :: sds) : Nat)) (2 ^ 64) := by
  induction sds generalizing zone sd with
  | nil => simp [applyEntries, applyEntry, addInt64, totalAmt]
  | cons sd2 sds ih =>
    rw [applyEntries_cons, ih, totalAmt_cons sd]
    simp only [applyEntry, addInt64]
    rw [Int.bmod_add_bmod_congr]
    push_cast
    rw [Int.add_assoc]

theorem applyEntries_delegatedAmt (zone : HostZone) (sds : List SplitDelegation)
    (addr : String) :
    delegatedAmt (applyEntries zone sds).validators addr =
      (delegatedAmt zone.validators addr).map fun d => d + assignedAmt sds addr := by
  induction sds generalizing zone with
  | nil => simp [applyEntries, assignedAmt]
  | cons sd sds ih =>
    rw [applyEntries_cons, ih]
    simp only [applyEntry]
    rw [delegatedAmt_creditValidator]
    by_cases h : addr = sd.validator
    · subst h
      cases delegatedAmt zone.validators sd.validator with
      | none => simp
      | some d => simp [assignedAmt]; omega
    · have h1 : ¬ sd.validator = addr := fun e => h e.symm
      simp [h, h1, assignedAmt]

theorem applyEntries_totalDelegated (zone : HostZone) (sds : List SplitDelegation)
    (hval : ∀ sd ∈ sds, sd.validator ∈ zone.addresses) :
    totalDelegated (applyEntries zone sds).validators =
      totalDelegated zone.validators + totalAmt sds := by
  induction sds generalizing zone with
  | nil => simp [applyEntries, totalAmt]
  | cons sd sds ih =>
    have h1 : ∀ sd1 ∈ sds, sd1.validator ∈ (applyEntry zone sd).addresses := by
      intro sd1 hsd1
      rw [applyEntry_addresses]
      exact hval sd1 (List.mem_cons_of_mem _ hsd1)
    rw [applyEntries_cons, ih _ h1, totalAmt_cons]
    simp only [applyEntry]
    rw [totalDelegated_creditValidator sd.amount (hval sd (List.mem_cons_self _ _))]
    omega

theorem applyEntries_balanced (zone : HostZone) (sds : List SplitDelegation)
    (hbal : zone.balanced) (hval : ∀ sd ∈ sds, sd.validator ∈ zone.addresses)
    (hfit : zone.stakedBal + (totalAmt sds : Nat) < 2 ^ 63) :
    (applyEntries zone sds).balanced := by
  cases sds with
  | nil => exact hbal
  | cons sd sds =>
    unfold HostZone.balanced at hbal ⊢
    rw [applyEntries_stakedBal, applyEntries_totalDelegated zone _ hval]
    have h := addInt64_of_range (a := zone.stakedBal) (b := (totalAmt (sd :: sds) : Nat))
      (by omega) hfit
    unfold addInt64 at h
    rw [h, hbal]
    push_cast
    rfl

/-! ## Loop lemmas -/

theorem delegateLoop_cons_valid (ctx : Store) (zone : HostZone) {sd : SplitDelegation}
    (rest : List SplitDelegation) (hamt : sd.amount < 2 ^ 63)
    (hval : sd.validator ∈ zone.addresses) :
    delegateLoop ctx zone (sd :: rest) =
      delegateLoop (SetHostZone ctx (applyEntry zone sd)) (applyEntry zone sd) rest := by
  have h1 : ¬ ToInt64 sd.amount < 0 := by rw [ToInt64_of_lt hamt]; omega
  have h2 : (ToInt64 sd.amount).toNat = sd.amount := by rw [ToInt64_of_lt hamt]; simp
  have h3 := addToValidator_of_mem sd.amount hval
  simp only [delegateLoop, h1, if_false, AddDelegationToValidator, h2, h3]
  rw [ToInt64_of_lt hamt]
  rfl

theorem delegateLoop_cons_negative (ctx : Store) (zone : HostZone) {sd : SplitDelegation}
    (rest : List SplitDelegation) (hamt : ToInt64 sd.amount < 0) :
    delegateLoop ctx zone (sd :: rest) =
      (some (Wrap .ErrLogic
        ("Balance to stake was negative: " ++ toString (ToInt64 sd.amount))), ctx) := by
  simp only [delegateLoop, hamt, if_true]

theorem delegateLoop_cons_unknown (ctx : Store) (zone : HostZone) {sd : SplitDelegation}
    (rest : List SplitDelegation) (hamt : 0 ≤ ToInt64 sd.amount)
    (hval : sd.validator ∉ zone.addresses) :
    delegateLoop ctx zone (sd :: rest) =
      (some (Wrap .ErrValidatorDelegationChg "Failed to add delegation to validator"), ctx) := by
  have h1 : ¬ ToInt64 sd.amount < 0 := by omega
  have h3 := addToValidator_of_not_mem (ToInt64 sd.amount).toNat hval
  simp only [delegateLoop, h1, if_false, AddDelegationToValidator, h3]

theorem delegateLoop_append {ctx : Store} {zone : HostZone} (pre l : List SplitDelegation)
    (hget : GetHostZone ctx zone.chainId = some zone)
    (hamt : ∀ sd ∈ pre, sd.amount < 2 ^ 63)
    (hval : ∀ sd ∈ pre, sd.validator ∈ zone.addresses) :
    delegateLoop ctx zone (pre ++ l) =
      delegateLoop (SetHostZone ctx (applyEntries zone pre)) (applyEntries zone pre) l := by
  induction pre generalizing ctx zone with
  | nil =>
    have h : SetHostZone ctx zone = ctx := SetHostZone_self hget
    simp only [List.nil_append, applyEntries, List.foldl_nil, h]
  | cons sd pre ih =>
    have h1 : ∀ sd1 ∈ pre, sd1.validator ∈ (applyEntry zone sd).addresses := by
      intro sd1 hsd1
      rw [applyEntry_addresses]
      exact hval sd1 (List.mem_cons_of_mem _ hsd1)
    rw [List.cons_append,
      delegateLoop_cons_valid ctx zone _ (hamt sd (List.mem_cons_self _ _))
        (hval sd (List.mem_cons_self _ _)),
      ih (GetHostZone_SetHostZone ctx (applyEntry zone sd))
        (fun sd1 hsd1 => hamt sd1 (List.mem_cons_of_mem _ hsd1)) h1,
      applyEntries_cons]
    rw [SetHostZone_SetHostZone ctx (applyEntries_chainId (applyEntry zone sd) pre).symm]

theorem stepZone_eq_applyEntry (zone : HostZone) {sd : SplitDelegation}
    (hamt : sd.amount < 2 ^ 63) : stepZone zone sd = applyEntry zone sd := by
  simp [stepZone, applyEntry, ToInt64_of_lt hamt]

theorem stepZone_addresses (zone : HostZone) (sd : SplitDelegation) :
    (stepZone zone sd).addresses = zone.addresses :=
  creditValidator_addresses zone.validators sd.validator (ToInt64 sd.amount).toNat

theorem delegateLoop_cons_step (ctx : Store) (zone : HostZone) {sd : SplitDelegation}
    (rest : List SplitDelegation) (hamt : 0 ≤ ToInt64 sd.amount)
    (hval : sd.validator ∈ zone.addresses) :
    delegateLoop ctx zone (sd :: rest) =
      delegateLoop (SetHostZone ctx (stepZone zone sd)) (stepZone zone sd) rest := by
  have h1 : ¬ ToInt64 sd.amount < 0 := by omega
  have h3 := addToValidator_of_mem (ToInt64 sd.amount).toNat hval
  simp only [delegateLoop, h1, if_false, AddDelegationToValidator, h3]
  rfl

theorem delegateLoopWrites_cons_step (zone : HostZone) {sd : SplitDelegation}
    (rest : List SplitDelegation) (hamt : 0 ≤ ToInt64 sd.amount)
    (hval : sd.validator ∈ zone.addresses) :
    delegateLoopWrites zone (sd :: rest) =
      stepZone zone sd :: delegateLoopWrites (stepZone zone sd) rest := by
  have h1 : ¬ ToInt64 sd.amount < 0 := by omega
  have h3 := addToValidator_of_mem (ToInt64 sd.amount).toNat hval
  simp only [delegateLoopWrites, h1, if_false, AddDelegationToValidator, h3]
  rfl

theorem delegateLoopWrites_cons_negative (zone : HostZone) {sd : SplitDelegation}
    (rest : List SplitDelegation) (hamt : ToInt64 sd.amount < 0) :
    delegateLoopWrites zone (sd :: rest) = [] := by
  simp only [delegateLoopWrites, hamt, if_true]

theorem delegateLoopWrites_cons_unknown (zone : HostZone) {sd : SplitDelegation}
    (rest : List SplitDelegation) (hamt : 0 ≤ ToInt64 sd.amount)
    (hval : sd.validator ∉ zone.addresses) :
    delegateLoopWrites zone (sd :: rest) = [] := by
  have h1 : ¬ ToInt64 sd.amount < 0 := by omega
  have h3 := addToValidator_of_not_mem (ToInt64 sd.amount).toNat hval
  simp only [delegateLoopWrites, h1, if_false, AddDelegationToValidator, h3]

/-- The store the loop leaves is the initial store with the written zones set
in order. -/
theorem delegateLoop_store (ctx : Store) (zone : HostZone) (sds : List SplitDelegation) :
    (delegateLoop ctx zone sds).2 = (delegateLoopWrites zone sds).foldl SetHostZone ctx := by
  induction sds generalizing ctx zone with
  | nil => rfl
  | cons sd rest ih =>
    by_cases hneg : ToInt64 sd.amount < 0
    · rw [delegateLoop_cons_negative ctx zone rest hneg,
        delegateLoopWrites_cons_negative zone rest hneg]
      rfl
    · have h0 : 0 ≤ ToInt64 sd.amount := by omega
      by_cases hk : sd.validator ∈ zone.addresses
      · rw [delegateLoop_cons_step ctx zone rest h0 hk,
          delegateLoopWrites_cons_step zone rest h0 hk, ih]
        rfl
      · rw [delegateLoop_cons_unknown ctx zone rest h0 hk,
          delegateLoopWrites_cons_unknown zone rest h0 hk]
        rfl

theorem foldl_SetHostZone_depositRecords (ws : List HostZone) (ctx : Store) :
    (ws.foldl SetHostZone ctx).depositRecords = ctx.depositRecords := by
  induction ws generalizing ctx with
  | nil => rfl
  | cons w ws ih => rw [List.foldl_cons, ih]; rfl

theorem delegateLoop_depositRecords (ctx : Store) (zone : HostZone)
    (sds : List SplitDelegation) :
    (delegateLoop ctx zone sds).2.depositRecords = ctx.depositRecords := by
  rw [delegateLoop_store, foldl_SetHostZone_depositRecords]

/-- A loop that ends without error has passed both checks on every entry. -/
theorem delegateLoop_ok_checks (ctx : Store) (zone : HostZone) (sds : List SplitDelegation)
    (h : (delegateLoop ctx zone sds).1 = none) :
    ∀ sd ∈ sds, 0 ≤ ToInt64 sd.amount ∧ sd.validator ∈ zone.addresses := by
  induction sds generalizing ctx zone with
  | nil => intro sd hsd; simp at hsd
  | cons sd rest ih =>
    by_cases hneg : ToInt64 sd.amount < 0
    · rw [delegateLoop_cons_negative ctx zone rest hneg] at h
      simp at h
    · have h0 : 0 ≤ ToInt64 sd.amount := by omega
      by_cases hk : sd.validator ∈ zone.addresses
      · rw [delegateLoop_cons_step ctx zone rest h0 hk] at h
        have ih1 := ih _ _ h
        intro sd1 hsd1
        rcases List.mem_cons.mp hsd1 with e | hmem
        · subst e; exact ⟨h0, hk⟩
        · have h2 := ih1 sd1 hmem
          rw [stepZone_addresses] at h2
          exact h2
      · rw [delegateLoop_cons_unknown ctx zone rest h0 hk] at h
        simp at h

theorem delegateLoop_valid {ctx : Store} {zone : HostZone} (sds : List SplitDelegation)
    (hget : GetHostZone ctx zone.chainId = some zone)
    (hamt : ∀ sd ∈ sds, sd.amount < 2 ^ 63)
    (hval : ∀ sd ∈ sds, sd.validator ∈ zone.addresses) :
    delegateLoop ctx zone sds = (none, SetHostZone ctx (applyEntries zone sds)) := by
  have h := delegateLoop_append sds [] hget hamt hval
  rw [List.append_nil] at h
  rw [h]
  rfl

theorem GetHostZone_foldl_SetHostZone (P : HostZone → Prop) (id : String) (ws : List HostZone)
    (ctx : Store) (hctx : ∀ z, GetHostZone ctx id = some z → P z) (hws : ∀ w ∈ ws, P w) :
    ∀ z, GetHostZone (ws.foldl SetHostZone ctx) id = some z → P z := by
  induction ws generalizing ctx with
  | nil => exact hctx
  | cons w ws ih =>
    rw [List.foldl_cons]
    apply ih
    · intro z hz
      by_cases hid : id = w.chainId
      · subst hid
        rw [GetHostZone_SetHostZone] at hz
        cases hz
        exact hws w (List.mem_cons_self _ _)
      · rw [GetHostZone_SetHostZone_ne ctx w hid] at hz
        exact hctx z hz
    · intro w1 hw1
      exact hws w1 (List.mem_cons_of_mem _ hw1)

theorem creditedAmt_cons_nonneg {sd : SplitDelegation} (rest : List SplitDelegation)
    (h : 0 ≤ ToInt64 sd.amount) : creditedAmt (sd :: rest) = sd.amount + creditedAmt rest := by
  simp [creditedAmt, List.takeWhile, h, totalAmt]

theorem delegateLoopWrites_balanced (zone : HostZone) (sds : List SplitDelegation)
    (hbal : zone.balanced) (hfit : zone.stakedBal + (creditedAmt sds : Nat) < 2 ^ 63) :
    ∀ z ∈ delegateLoopWrites zone sds, z.balanced := by
  induction sds generalizing zone with
  | nil => intro z hz; simp [delegateLoopWrites] at hz
  | cons sd rest ih =>
    by_cases hneg : ToInt64 sd.amount < 0
    · rw [delegateLoopWrites_cons_negative zone rest hneg]
      intro z hz; simp at hz
    · have h0 : 0 ≤ ToInt64 sd.amount := by omega
      by_cases hk : sd.validator ∈ zone.addresses
      · rw [delegateLoopWrites_cons_step zone rest h0 hk]
        rw [creditedAmt_cons_nonneg rest h0] at hfit
        have hnn : (0 : Int) ≤ zone.stakedBal := by
          unfold HostZone.balanced at hbal
          omega
        have hlt : sd.amount < 2 ^ 63 := by
          push_cast at hfit
          omega
        rw [stepZone_eq_applyEntry zone hlt]
        have hsb : (applyEntry zone sd).stakedBal = zone.stakedBal + (sd.amount : Nat) := by
          simp only [applyEntry]
          apply addInt64_of_range
          · omega
          · push_cast at hfit
            omega
        have ht : totalAmt [sd] = sd.amount := by simp [totalAmt]
        have hb1 : (applyEntry zone sd).balanced :=
          applyEntries_balanced zone [sd] hbal
            (by intro sd1 hsd1; simp at hsd1; subst hsd1; exact hk)
            (by rw [ht]; push_cast at hfit; omega)
        intro z hz
        rcases List.mem_cons.mp hz with e | hmem
        · subst e; exact hb1
        · apply ih (applyEntry zone sd) hb1 _ z hmem
          rw [hsb]
          push_cast at hfit ⊢
          omega
      · rw [delegateLoopWrites_cons_unknown zone rest h0 hk]
        intro z hz; simp at hz

/-- With a non-nil acknowledgment, decodable arguments and an existing zone the
handler is the loop followed by the removal of the deposit record. -/
theorem DelegateCallback_eq_loop {k : Keeper} {ctx : Store} (packet : Packet) (ack : AckResult)
    {args : Bytes} {cb : types.DelegateCallback} {zone : HostZone}
    (hargs : k.UnmarshalDelegateCallbackArgs args = .ok cb)
    (hzone : GetHostZone ctx cb.hostZoneId = some zone) :
    DelegateCallback k ctx packet (some ack) args =
      match delegateLoop ctx zone cb.splitDelegations with
      | (some err, ctx1) => (some err, ctx1)
      | (none, ctx1) => (none, RemoveDepositRecord ctx1 cb.depositRecordId) := by
  simp only [DelegateCallback, hargs, hzone, ToUint64]

/-! ## Delegation handler: success -/

/-- C1 (counterexample): zone `GAIA` holds a staked balance of `2^63 - 1`, the
callback delegates 1 to its validator, every claimed precondition holds and the
handler returns no error, yet the stored balance afterwards is `-2^63`, not the
previous value plus the sum of the amounts. -/
theorem DelegateCallback_stakedBal_wraps :
    GetHostZone fullStore "GAIA" = some fullZone ∧
    protoKeeper.UnmarshalDelegateCallbackArgs oneArgs = .ok ⟨"GAIA", 1, [⟨"val1", 1⟩]⟩ ∧
    ToInt64 1 = 1 ∧ "val1" ∈ fullZone.addresses ∧
    (DelegateCallback protoKeeper fullStore samplePacket (some sampleAck) oneArgs).1 = none ∧
    (GetHostZone (DelegateCallback protoKeeper fullStore samplePacket (some sampleAck) oneArgs).2
        "GAIA").map (fun z => z.stakedBal) = some (-9223372036854775808) ∧
    (GetHostZone (DelegateCallback protoKeeper fullStore samplePacket (some sampleAck) oneArgs).2
        "GAIA").map (fun z => z.stakedBal) ≠
      some (fullZone.stakedBal + (totalAmt [⟨"val1", 1⟩] : Nat)) :=
  ⟨by decide, rfl, by decide, by decide, by decide, by decide, by decide⟩

/-- C1 (amended): with a non-nil acknowledgment, an existing host zone, amounts
that are non-negative as `int64` (below `2^63`) and validators of the zone, the
handler returns no error; the stored zone has the previous staked balance plus
the sum of the amounts reduced to the `int64` range, which is the exact sum
whenever that is below `2^63`; the delegated amount of every named validator has
grown by the sum of the amounts the list assigns to it; the deposit record with
the given id is gone; an empty list only removes the deposit record. -/
theorem DelegateCallback_credits_all_entries (k : Keeper) (ctx : Store) (packet : Packet)
    (ack : AckResult) (args : Bytes) (cb : types.DelegateCallback) (zone : HostZone)
    (hargs : k.UnmarshalDelegateCallbackArgs args = .ok cb)
    (hzone : GetHostZone ctx cb.hostZoneId = some zone)
    (hamt : ∀ sd ∈ cb.splitDelegations, sd.amount < 2 ^ 63)
    (hval : ∀ sd ∈ cb.splitDelegations, sd.validator ∈ zone.addresses) :
    (DelegateCallback k ctx packet (some ack) args).1 = none ∧
    (∃ zone1,
      GetHostZone (DelegateCallback k ctx packet (some ack) args).2 cb.hostZoneId = some zone1 ∧
      (cb.splitDelegations ≠ [] → zone1.stakedBal =
        Int.bmod (zone.stakedBal + (totalAmt cb.splitDelegations : Nat)) (2 ^ 64)) ∧
      (-(2 ^ 63) ≤ zone.stakedBal →
        zone.stakedBal + (totalAmt cb.splitDelegations : Nat) < 2 ^ 63 →
        zone1.stakedBal = zone.stakedBal + (totalAmt cb.splitDelegations : Nat)) ∧
      zone1.addresses = zone.addresses ∧
      ∀ addr, delegatedAmt zone1.validators addr =
        (delegatedAmt zone.validators addr).map
          fun d => d + assignedAmt cb.splitDelegations addr) ∧
    (DelegateCallback k ctx packet (some ack) args).2.depositRecords cb.depositRecordId = none ∧
    (cb.splitDelegations = [] →
      (DelegateCallback k ctx packet (some ack) args).2 =
        RemoveDepositRecord ctx cb.depositRecordId) := by
  have hid : zone.chainId = cb.hostZoneId := GetHostZone_chainId hzone
  have hget : GetHostZone ctx zone.chainId = some zone := by rw [hid]; exact hzone
  have hrun : DelegateCallback k ctx packet (some ack) args =
      (none, RemoveDepositRecord (SetHostZone ctx (applyEntries zone cb.splitDelegations))
        cb.depositRecordId) := by
    rw [DelegateCallback_eq_loop packet ack hargs hzone,
      delegateLoop_valid cb.splitDelegations hget hamt hval]
  rw [hrun]
  refine ⟨rfl, ⟨applyEntries zone cb.splitDelegations, ?_, ?_, ?_, ?_, ?_⟩, ?_, ?_⟩
  · have h1 := GetHostZone_SetHostZone ctx (applyEntries zone cb.splitDelegations)
    rw [applyEntries_chainId, hid] at h1
    exact h1
  · intro hne
    cases hs : cb.splitDelegations with
    | nil => exact absurd hs hne
    | cons sd sds => exact applyEntries_stakedBal zone sd sds
  · intro hlo hhi
    cases hs : cb.splitDelegations with
    | nil => simp [applyEntries, totalAmt]
    | cons sd sds =>
      rw [applyEntries_stakedBal zone sd sds]
      rw [hs] at hhi
      have h := addInt64_of_range (a := zone.stakedBal) (b := (totalAmt (sd :: sds) : Nat))
        (by omega) hhi
      unfold addInt64 at h
      exact h
  · exact applyEntries_addresses zone cb.splitDelegations
  · exact applyEntries_delegatedAmt zone cb.splitDelegations
  · simp [RemoveDepositRecord]
  · intro hs
    rw [hs]
    simp only [applyEntries, List.foldl_nil]
    rw [SetHostZone_self hget]

/-- Witness for C1 (amended): the sample store and a list of three entries, one
validator named twice. -/
theorem DelegateCallback_credits_all_entries_witness :
    protoKeeper.UnmarshalDelegateCallbackArgs sampleArgs = .ok sampleCallback ∧
    GetHostZone sampleStore sampleCallback.hostZoneId = some sampleZone ∧
    (DelegateCallback protoKeeper sampleStore samplePacket (some sampleAck) sampleArgs).1 = none ∧
    (DelegateCallback protoKeeper sampleStore samplePacket (some sampleAck)
      sampleArgs).2.depositRecords sampleCallback.depositRecordId = none :=
  have h := DelegateCallback_credits_all_entries protoKeeper sampleStore samplePacket sampleAck
    sampleArgs sampleCallback sampleZone rfl (by decide) (by decide) (by decide)
  ⟨rfl, by decide, h.1, h.2.2.1⟩

/-! ## Delegation handler: failures -/

/-- C2: with a nil acknowledgment the handler returns the "ack is nil" error,
whatever the ledger and the argument bytes, and the store is the one it was
given. -/
theorem DelegateCallback_nil_ack (k : Keeper) (ctx : Store) (packet : Packet) (args : Bytes) :
    DelegateCallback k ctx packet none args =
      (some (Wrap .ErrInvalidRequest "ack is nil"), ctx) := rfl

/-- C3: when the entry at position `i` (`bad`, after the entries `pre`) has a
negative amount and the entries before it are non-negative and name validators
of the zone, the handler returns the "negative balance" error and the store is
the initial one with the zone replaced by the zone after the entries before `i`
(what the loop itself leaves on those entries); the deposit records are
untouched. -/
theorem DelegateCallback_negative_amount (k : Keeper) (ctx : Store) (packet : Packet)
    (ack : AckResult) (args : Bytes) (cb : types.DelegateCallback) (zone : HostZone)
    (pre : List SplitDelegation) (bad : SplitDelegation) (rest : List SplitDelegation)
    (hargs : k.UnmarshalDelegateCallbackArgs args = .ok cb)
    (hzone : GetHostZone ctx cb.hostZoneId = some zone)
    (hsplit : cb.splitDelegations = pre ++ bad :: rest)
    (hpre : ∀ sd ∈ pre, sd.amount < 2 ^ 63)
    (hval : ∀ sd ∈ pre, sd.validator ∈ zone.addresses)
    (hbad : ToInt64 bad.amount < 0) :
    DelegateCallback k ctx packet (some ack) args =
      (some (Wrap .ErrLogic
          ("Balance to stake was negative: " ++ toString (ToInt64 bad.amount))),
        SetHostZone ctx (applyEntries zone pre)) ∧
    delegateLoop ctx zone pre = (none, SetHostZone ctx (applyEntries zone pre)) ∧
    GetHostZone (DelegateCallback k ctx packet (some ack) args).2 cb.hostZoneId =
      some (applyEntries zone pre) ∧
    (DelegateCallback k ctx packet (some ack) args).2.depositRecords = ctx.depositRecords := by
  have hid : zone.chainId = cb.hostZoneId := GetHostZone_chainId hzone
  have hget : GetHostZone ctx zone.chainId = some zone := by rw [hid]; exact hzone
  have hrun : DelegateCallback k ctx packet (some ack) args =
      (some (Wrap .ErrLogic
          ("Balance to stake was negative: " ++ toString (ToInt64 bad.amount))),
        SetHostZone ctx (applyEntries zone pre)) := by
    rw [DelegateCallback_eq_loop packet ack hargs hzone, hsplit,
      delegateLoop_append pre (bad :: rest) hget hpre hval,
      delegateLoop_cons_negative _ _ rest hbad]
  rw [hrun]
  refine ⟨rfl, delegateLoop_valid pre hget hpre hval, ?_, rfl⟩
  have h1 := GetHostZone_SetHostZone ctx (applyEntries zone pre)
  rw [applyEntries_chainId, hid] at h1
  exact h1

/-- Witness for C3: the second of three entries is `2^63`. -/
theorem DelegateCallback_negative_amount_witness :
    ToInt64 9223372036854775808 < 0 ∧
    (DelegateCallback protoKeeper sampleStore samplePacket (some sampleAck) negativeArgs).1 =
      some (Wrap .ErrLogic
        ("Balance to stake was negative: " ++ toString (ToInt64 9223372036854775808))) ∧
    GetHostZone (DelegateCallback protoKeeper sampleStore samplePacket (some sampleAck)
      negativeArgs).2 "GAIA" = some (applyEntries sampleZone [⟨"val1", 5⟩]) :=
  have h := DelegateCallback_negative_amount protoKeeper sampleStore samplePacket sampleAck
    negativeArgs negativeCallback sampleZone [⟨"val1", 5⟩] ⟨"val2", 9223372036854775808⟩
    [⟨"val1", 7⟩] rfl (by decide) rfl (by decide) (by decide) (by decide)
  ⟨by decide, congrArg Prod.fst h.1, h.2.2.1⟩

/-- C9: when the entry at position `i` (`bad`, after the entries `pre`) has a
non-negative amount and names a validator that is not in the zone, and the
entries before it are non-negative and name validators of the zone, the handler
returns the "failed to add delegation" error and the stored zone is the zone
after the entries before `i` (what the loop itself leaves on those entries): the
failing amount reaches neither the stored balance nor a validator, and no later
entry is applied. -/
theorem DelegateCallback_unknown_validator (k : Keeper) (ctx : Store) (packet : Packet)
    (ack : AckResult) (args : Bytes) (cb : types.DelegateCallback) (zone : HostZone)
    (pre : List SplitDelegation) (bad : SplitDelegation) (rest : List SplitDelegation)
    (hargs : k.UnmarshalDelegateCallbackArgs args = .ok cb)
    (hzone : GetHostZone ctx cb.hostZoneId = some zone)
    (hsplit : cb.splitDelegations = pre ++ bad :: rest)
    (hpre : ∀ sd ∈ pre, sd.amount < 2 ^ 63)
    (hval : ∀ sd ∈ pre, sd.validator ∈ zone.addresses)
    (hamt : 0 ≤ ToInt64 bad.amount)
    (hbad : bad.validator ∉ zone.addresses) :
    DelegateCallback k ctx packet (some ack) args =
      (some (Wrap .ErrValidatorDelegationChg "Failed to add delegation to validator"),
        SetHostZone ctx (applyEntries zone pre)) ∧
    delegateLoop ctx zone pre = (none, SetHostZone ctx (applyEntries zone pre)) ∧
    GetHostZone (DelegateCallback k ctx packet (some ack) args).2 cb.hostZoneId =
      some (applyEntries zone pre) := by
  have hid : zone.chainId = cb.hostZoneId := GetHostZone_chainId hzone
  have hget : GetHostZone ctx zone.chainId = some zone := by rw [hid]; exact hzone
  have hbad1 : bad.validator ∉ (applyEntries zone pre).addresses := by
    rw [applyEntries_addresses]; exact hbad
  have hrun : DelegateCallback k ctx packet (some ack) args =
      (some (Wrap .ErrValidatorDelegationChg "Failed to add delegation to validator"),
        SetHostZone ctx (applyEntries zone pre)) := by
    rw [DelegateCallback_eq_loop packet ack hargs hzone, hsplit,
      delegateLoop_append pre (bad :: rest) hget hpre hval,
      delegateLoop_cons_unknown _ _ rest hamt hbad1]
  rw [hrun]
  refine ⟨rfl, delegateLoop_valid pre hget hpre hval, ?_⟩
  have h1 := GetHostZone_SetHostZone ctx (applyEntries zone pre)
  rw [applyEntries_chainId, hid] at h1
  exact h1

/-- Witness for C9: the second of three entries names `val3`. -/
theorem DelegateCallback_unknown_validator_witness :
    "val3" ∉ sampleZone.addresses ∧
    (DelegateCallback protoKeeper sampleStore samplePacket (some sampleAck) unknownArgs).1 =
      some (Wrap .ErrValidatorDelegationChg "Failed to add delegation to validator") ∧
    GetHostZone (DelegateCallback protoKeeper sampleStore samplePacket (some sampleAck)
      unknownArgs).2 "GAIA" = some (applyEntries sampleZone [⟨"val1", 5⟩]) :=
  have h := DelegateCallback_unknown_validator protoKeeper sampleStore samplePacket sampleAck
    unknownArgs unknownCallback sampleZone [⟨"val1", 5⟩] ⟨"val3", 3⟩
    [⟨"val1", 7⟩] rfl (by decide) rfl (by decide) (by decide) (by decide) (by decide)
  ⟨by decide, congrArg Prod.fst h.1, h.2.2⟩

/-- C8: whenever the handler returns an error the deposit records are the ones
it was given; and when the deposit records differ afterwards the handler has
returned no error, the arguments decoded, the zone existed and every entry of
the list passed both checks of the loop. -/
theorem DelegateCallback_deposit_records (k : Keeper) (ctx : Store) (packet : Packet)
    (ack : Option AckResult) (args : Bytes) :
    ((DelegateCallback k ctx packet ack args).1 ≠ none →
      (DelegateCallback k ctx packet ack args).2.depositRecords = ctx.depositRecords) ∧
    ((DelegateCallback k ctx packet ack args).2.depositRecords ≠ ctx.depositRecords →
      (DelegateCallback k ctx packet ack args).1 = none ∧
      ∃ cb zone, k.UnmarshalDelegateCallbackArgs args = .ok cb ∧
        GetHostZone ctx cb.hostZoneId = some zone ∧
        (delegateLoop ctx zone cb.splitDelegations).1 = none ∧
        ∀ sd ∈ cb.splitDelegations, 0 ≤ ToInt64 sd.amount ∧ sd.validator ∈ zone.addresses) := by
  cases ack with
  | none => exact ⟨fun _ => rfl, fun h => absurd rfl h⟩
  | some a =>
    cases hd : k.UnmarshalDelegateCallbackArgs args with
    | error e =>
      have hrun : DelegateCallback k ctx packet (some a) args = (some e, ctx) := by
        simp only [DelegateCallback, hd]
      rw [hrun]
      exact ⟨fun _ => rfl, fun h => absurd rfl h⟩
    | ok cb =>
      cases hz : GetHostZone ctx cb.hostZoneId with
      | none =>
        have hrun : DelegateCallback k ctx packet (some a) args =
            (some (Wrap .ErrInvalidRequest "host zone not found"), ctx) := by
          simp only [DelegateCallback, hd, hz]
        rw [hrun]
        exact ⟨fun _ => rfl, fun h => absurd rfl h⟩
      | some zone =>
        have hdep := delegateLoop_depositRecords ctx zone cb.splitDelegations
        rw [DelegateCallback_eq_loop packet a hd hz]
        cases hl : delegateLoop ctx zone cb.splitDelegations with
        | mk e ctx1 =>
          rw [hl] at hdep
          cases e with
          | some err => exact ⟨fun _ => hdep, fun h => absurd hdep h⟩
          | none =>
            refine ⟨fun h => absurd rfl h, fun _ => ⟨rfl, cb, zone, rfl, hz, ?_, ?_⟩⟩
            · rw [hl]
            · exact delegateLoop_ok_checks ctx zone cb.splitDelegations (by rw [hl])

/-- Witness for C8: the run that stops at the negative entry returns an error
and keeps the deposit records. -/
theorem DelegateCallback_deposit_records_witness :
    (DelegateCallback protoKeeper sampleStore samplePacket (some sampleAck) negativeArgs).1
      ≠ none ∧
    (DelegateCallback protoKeeper sampleStore samplePacket (some sampleAck)
      negativeArgs).2.depositRecords = sampleStore.depositRecords :=
  ⟨by decide,
    (DelegateCallback_deposit_records protoKeeper sampleStore samplePacket (some sampleAck)
      negativeArgs).1 (by decide)⟩

/-- C10 (counterexample): zone `GAIA` is balanced (balance and delegations are
both `2^63 - 1`); after the callback delegating 1 the stored zone has balance
`-2^63` and delegations `2^63`, so the invariant is lost. -/
theorem DelegateCallback_breaks_balanced :
    fullZone.balanced ∧
    GetHostZone fullStore "GAIA" = some fullZone ∧
    protoKeeper.UnmarshalDelegateCallbackArgs oneArgs = .ok ⟨"GAIA", 1, [⟨"val1", 1⟩]⟩ ∧
    ∃ zone1,
      GetHostZone (DelegateCallback protoKeeper fullStore samplePacket (some sampleAck)
        oneArgs).2 "GAIA" = some zone1 ∧
      zone1 ∈ delegateLoopWrites fullZone [⟨"val1", 1⟩] ∧ ¬ zone1.balanced :=
  ⟨by decide, by decide, rfl,
    ⟨"GAIA", [⟨"val1", 9223372036854775808⟩], -9223372036854775808⟩,
    by decide, by decide, by decide⟩

/-- C10 (amended): if the zone is balanced before the handler runs and its
balance plus the amounts of the entries before the first negative one stays
below `2^63`, then every zone value the loop writes is balanced, the store the
handler leaves is the initial one with exactly these values written in order
(and the deposit record removed on success), and the stored zone is balanced
when the handler returns, with or without an error and for a nil acknowledgment
as well. -/
theorem DelegateCallback_keeps_balanced (k : Keeper) (ctx : Store) (packet : Packet)
    (ack : Option AckResult) (args : Bytes) (cb : types.DelegateCallback) (zone : HostZone)
    (hargs : k.UnmarshalDelegateCallbackArgs args = .ok cb)
    (hzone : GetHostZone ctx cb.hostZoneId = some zone)
    (hbal : zone.balanced)
    (hfit : zone.stakedBal + (creditedAmt cb.splitDelegations : Nat) < 2 ^ 63) :
    (∀ z ∈ delegateLoopWrites zone cb.splitDelegations, z.balanced) ∧
    (∀ a, (DelegateCallback k ctx packet (some a) args).2.hostZones =
      ((delegateLoopWrites zone cb.splitDelegations).foldl SetHostZone ctx).hostZones) ∧
    ∀ z, GetHostZone (DelegateCallback k ctx packet ack args).2 cb.hostZoneId = some z →
      z.balanced := by
  have hw := delegateLoopWrites_balanced zone cb.splitDelegations hbal hfit
  have hstore : ∀ a, (DelegateCallback k ctx packet (some a) args).2.hostZones =
      ((delegateLoopWrites zone cb.splitDelegations).foldl SetHostZone ctx).hostZones := by
    intro a
    rw [DelegateCallback_eq_loop packet a hargs hzone, ← delegateLoop_store ctx zone]
    cases hl : delegateLoop ctx zone cb.splitDelegations with
    | mk e ctx1 =>
      cases e with
      | some err => rfl
      | none => rfl
  refine ⟨hw, hstore, ?_⟩
  cases ack with
  | none =>
    intro z hz
    change GetHostZone ctx cb.hostZoneId = some z at hz
    rw [hzone] at hz
    cases hz
    exact hbal
  | some a =>
    intro z hz
    have hfin := GetHostZone_foldl_SetHostZone HostZone.balanced cb.hostZoneId
      (delegateLoopWrites zone cb.splitDelegations) ctx
      (by intro z1 hz1; rw [hzone] at hz1; cases hz1; exact hbal) hw z
    apply hfin
    unfold GetHostZone at hz ⊢
    rw [hstore a] at hz
    exact hz

/-- Witness for C10 (amended): the sample store and a list of three entries. -/
theorem DelegateCallback_keeps_balanced_witness :
    sampleZone.balanced ∧
    sampleZone.stakedBal + (creditedAmt sampleCallback.splitDelegations : Nat) < 2 ^ 63 ∧
    ∀ z, GetHostZone (DelegateCallback protoKeeper sampleStore samplePacket (some sampleAck)
      sampleArgs).2 sampleCallback.hostZoneId = some z → z.balanced :=
  ⟨by decide, by decide,
    (DelegateCallback_keeps_balanced protoKeeper sampleStore samplePacket (some sampleAck)
      sampleArgs sampleCallback sampleZone rfl (by decide) (by decide) (by decide)).2.2⟩

/-! ## Redemption handler -/

/-- C4: when the decoded id names an existing user redemption record and the
acknowledgment is non-nil, the handler returns no error and the store has no
user redemption record with that id afterwards. -/
theorem RedemptionCallback_removes_record (k : Keeper) (ctx : Store) (packet : Packet)
    (ack : AckResult) (args : Bytes) (record : UserRedemptionRecord)
    (hrec : GetUserRedemptionRecord ctx
      (k.UnmarshalRedemptionCallbackArgs args).userRedemptionRecordId = some record) :
    (RedemptionCallback k ctx packet (some ack) args).1 = none ∧
    GetUserRedemptionRecord (RedemptionCallback k ctx packet (some ack) args).2
      (k.UnmarshalRedemptionCallbackArgs args).userRedemptionRecordId = none := by
  have hrun : RedemptionCallback k ctx packet (some ack) args =
      (none, RemoveUserRedemptionRecord ctx
        (k.UnmarshalRedemptionCallbackArgs args).userRedemptionRecordId) := by
    simp only [RedemptionCallback, hrec]
  rw [hrun]
  refine ⟨rfl, ?_⟩
  simp [GetUserRedemptionRecord, RemoveUserRedemptionRecord]

/-- Witness for C4: record 7 of the sample store. -/
theorem RedemptionCallback_removes_record_witness :
    GetUserRedemptionRecord sampleStore 7 = some ⟨7, "alice", 10, false⟩ ∧
    (RedemptionCallback protoKeeper sampleStore samplePacket (some sampleAck)
      redemptionArgs).1 = none ∧
    GetUserRedemptionRecord (RedemptionCallback protoKeeper sampleStore samplePacket
      (some sampleAck) redemptionArgs).2 7 = none :=
  ⟨by decide,
    RedemptionCallback_removes_record protoKeeper sampleStore samplePacket sampleAck
      redemptionArgs ⟨7, "alice", 10, false⟩ (by decide)⟩

/-- C5: when the decoded id names an existing user redemption record and the
acknowledgment is nil, the handler returns the "ack is nil" error and the record
is still in the store, with the claimable flag true and nothing else changed. -/
theorem RedemptionCallback_nil_ack_marks_claimable (k : Keeper) (ctx : Store)
    (packet : Packet) (args : Bytes) (record : UserRedemptionRecord)
    (hrec : GetUserRedemptionRecord ctx
      (k.UnmarshalRedemptionCallbackArgs args).userRedemptionRecordId = some record) :
    (RedemptionCallback k ctx packet none args).1 =
      some (Wrap .ErrInvalidRequest "ack is nil") ∧
    GetUserRedemptionRecord (RedemptionCallback k ctx packet none args).2
      (k.UnmarshalRedemptionCallbackArgs args).userRedemptionRecordId =
        some { record with isClaimable := true } := by
  have hid : record.id = (k.UnmarshalRedemptionCallbackArgs args).userRedemptionRecordId := by
    unfold GetUserRedemptionRecord at hrec
    cases hr : ctx.userRedemptionRecords
        (k.UnmarshalRedemptionCallbackArgs args).userRedemptionRecordId with
    | none => rw [hr] at hrec; simp at hrec
    | some r =>
      rw [hr] at hrec
      simp only [Option.map_some', Option.some.injEq] at hrec
      rw [← hrec]
  have hrun : RedemptionCallback k ctx packet none args =
      (some (Wrap .ErrInvalidRequest "ack is nil"),
        SetUserRedemptionRecord ctx { record with isClaimable := true }) := by
    simp only [RedemptionCallback, hrec]
  rw [hrun]
  refine ⟨rfl, ?_⟩
  simp [GetUserRedemptionRecord, SetUserRedemptionRecord, hid]

/-- Witness for C5: record 7 of the sample store. -/
theorem RedemptionCallback_nil_ack_marks_claimable_witness :
    GetUserRedemptionRecord sampleStore 7 = some ⟨7, "alice", 10, false⟩ ∧
    (RedemptionCallback protoKeeper sampleStore samplePacket none redemptionArgs).1 =
      some (Wrap .ErrInvalidRequest "ack is nil") ∧
    GetUserRedemptionRecord
      (RedemptionCallback protoKeeper sampleStore samplePacket none redemptionArgs).2 7 =
        some ⟨7, "alice", 10, true⟩ :=
  ⟨by decide,
    RedemptionCallback_nil_ack_marks_claimable protoKeeper sampleStore samplePacket
      redemptionArgs ⟨7, "alice", 10, false⟩ (by decide)⟩

/-- C6: when the decoded id names no user redemption record, the handler
returns the "record not found" error for a nil and for a non-nil acknowledgment
and the store is the one it was given. -/
theorem RedemptionCallback_record_not_found (k : Keeper) (ctx : Store) (packet : Packet)
    (ack : Option AckResult) (args : Bytes)
    (hrec : GetUserRedemptionRecord ctx
      (k.UnmarshalRedemptionCallbackArgs args).userRedemptionRecordId = none) :
    RedemptionCallback k ctx packet ack args =
      (some (Wrap .ErrRecordNotFound "user redemption record not found"), ctx) := by
  simp only [RedemptionCallback, hrec]

/-- Witness for C6: the sample store has no record 9. -/
theorem RedemptionCallback_record_not_found_witness :
    GetUserRedemptionRecord sampleStore 9 = none ∧
    RedemptionCallback protoKeeper sampleStore samplePacket (some sampleAck)
        missingRedemptionArgs =
      (some (Wrap .ErrRecordNotFound "user redemption record not found"), sampleStore) :=
  ⟨by decide,
    RedemptionCallback_record_not_found protoKeeper sampleStore samplePacket (some sampleAck)
      missingRedemptionArgs (by decide)⟩

/-- C7 (the code at the failing input): the bytes `08` do not decode as a
`RedemptionCallback` (the codec reports an error and leaves the id 0), the store
holds the user redemption record 0, and the handler, given a non-nil
acknowledgment, returns no error and removes that record; given a nil
acknowledgment it returns the "ack is nil" error and marks the record
claimable. -/
theorem RedemptionCallback_ignores_decode_error :
    protoKeeper.proto.unmarshalRedemptionCallback truncatedArgs =
      (⟨0⟩, some (protoErr "unexpected EOF")) ∧
    GetUserRedemptionRecord zeroRecordStore 0 = some ⟨0, "alice", 10, false⟩ ∧
    (RedemptionCallback protoKeeper zeroRecordStore samplePacket (some sampleAck)
      truncatedArgs).1 = none ∧
    GetUserRedemptionRecord (RedemptionCallback protoKeeper zeroRecordStore samplePacket
      (some sampleAck) truncatedArgs).2 0 = none ∧
    GetUserRedemptionRecord (RedemptionCallback protoKeeper zeroRecordStore samplePacket
      none truncatedArgs).2 0 = some ⟨0, "alice", 10, true⟩ :=
  ⟨by decide, by decide, by decide, by decide, by decide⟩

/-! ## Callback registry -/

theorem AddICACallback_same (c : ICACallbacks) (id : String) (fn : ICACallback) :
    (c.AddICACallback id fn).icacallbacks id = some fn := by
  simp [ICACallbacks.AddICACallback]

theorem AddICACallback_other (c : ICACallbacks) (id : String) (fn : ICACallback)
    {other : String} (h : other ≠ id) :
    (c.AddICACallback id fn).icacallbacks other = c.icacallbacks other := by
  simp [ICACallbacks.AddICACallback, Function.update_noteq h]

theorem HasICACallback_AddICACallback (c : ICACallbacks) (id : String) (fn : ICACallback)
    (other : String) :
    (c.AddICACallback id fn).HasICACallback other =
      if other = id then true else c.HasICACallback other := by
  by_cases h : other = id
  · subst h
    simp only [ICACallbacks.HasICACallback, AddICACallback_same, if_true]
  · simp only [ICACallbacks.HasICACallback, AddICACallback_other c id fn h, if_neg h]

theorem RegisterICACallbacks_has (k : Keeper) (redemptionCallback : ICACallback)
    (id : String) :
    (k.ICACallbackHandler.RegisterICACallbacks redemptionCallback).HasICACallback id =
      if id = "redemption" then true else if id = "delegate" then true else false := by
  unfold ICACallbacks.RegisterICACallbacks
  rw [HasICACallback_AddICACallback, HasICACallback_AddICACallback]
  rfl

/-- C11: after registering `h1` and then `h2` under the same identifier the
registry is the one with `h2` alone registered, the entry is `h2` and a dispatch
returns what `h2` returns; a fresh registry does not have the identifier, any
registry has it after the registration, and the registration changes neither
`HasICACallback` nor the entry of any other identifier. -/
theorem AddICACallback_latest_wins (c : ICACallbacks) (k : Keeper) (id : String)
    (h1 h2 : ICACallback) (ctx : Store) (packet : Packet) (ack : Option AckResult)
    (args : Bytes) :
    (c.AddICACallback id h1).AddICACallback id h2 = c.AddICACallback id h2 ∧
    ((c.AddICACallback id h1).AddICACallback id h2).icacallbacks id = some h2 ∧
    ((c.AddICACallback id h1).AddICACallback id h2).CallICACallback ctx id packet ack args =
      .returned (h2 c.k ctx packet ack args).1 (h2 c.k ctx packet ack args).2 ∧
    k.ICACallbackHandler.HasICACallback id = false ∧
    (k.ICACallbackHandler.AddICACallback id h1).HasICACallback id = true ∧
    (c.AddICACallback id h1).HasICACallback id = true ∧
    ∀ other, other ≠ id →
      (c.AddICACallback id h1).HasICACallback other = c.HasICACallback other ∧
      (c.AddICACallback id h1).icacallbacks other = c.icacallbacks other ∧
      (c.AddICACallback id h1).CallICACallback ctx other packet ack args =
        c.CallICACallback ctx other packet ack args := by
  refine ⟨?_, AddICACallback_same _ id h2, ?_, rfl, ?_, ?_, ?_⟩
  · simp [ICACallbacks.AddICACallback, Function.update_idem]
  · simp only [ICACallbacks.CallICACallback, AddICACallback_same]
    rfl
  · simp only [ICACallbacks.HasICACallback, AddICACallback_same]
  · simp only [ICACallbacks.HasICACallback, AddICACallback_same]
  · intro other hne
    have h := AddICACallback_other c id h1 hne
    refine ⟨?_, h, ?_⟩
    · simp only [ICACallbacks.HasICACallback, h]
    · simp only [ICACallbacks.CallICACallback, h]
      rfl

/-- Witness for C11: `okHandler` registered after `failHandler` under
`"delegate"`; the dispatch succeeds, and `"redemption"` stays unregistered. -/
theorem AddICACallback_latest_wins_witness :
    ((protoKeeper.ICACallbackHandler.AddICACallback "delegate" failHandler).AddICACallback
      "delegate" okHandler).CallICACallback sampleStore "delegate" samplePacket none [] =
        .returned none sampleStore ∧
    (protoKeeper.ICACallbackHandler.AddICACallback "delegate" failHandler).HasICACallback
      "redemption" = false :=
  have h := AddICACallback_latest_wins protoKeeper.ICACallbackHandler protoKeeper "delegate"
    failHandler okHandler sampleStore samplePacket none []
  ⟨h.2.2.1, (h.2.2.2.2.2.2 "redemption" (by decide)).1⟩

/-- C12: when `id` is registered to the handler `h`, the dispatch returns what
`h` returns on the registry's keeper and the same context, packet,
acknowledgment and arguments: the same error (or none) and the same store. -/
theorem CallICACallback_returns_handler_result (c : ICACallbacks) (ctx : Store) (id : String)
    (packet : Packet) (ack : Option AckResult) (args : Bytes) (h : ICACallback)
    (hreg : c.icacallbacks id = some h) :
    c.CallICACallback ctx id packet ack args =
      .returned (h c.k ctx packet ack args).1 (h c.k ctx packet ack args).2 := by
  simp only [ICACallbacks.CallICACallback, hreg]

/-- Witness for C12: `failHandler` registered under `"delegate"`. -/
theorem CallICACallback_returns_handler_result_witness :
    (protoKeeper.ICACallbackHandler.AddICACallback "delegate" failHandler).CallICACallback
      sampleStore "delegate" samplePacket (some sampleAck) [] =
        .returned (some (Wrap .ErrLogic "fail")) sampleStore :=
  CallICACallback_returns_handler_result
    (protoKeeper.ICACallbackHandler.AddICACallback "delegate" failHandler) sampleStore
    "delegate" samplePacket (some sampleAck) [] failHandler
    (AddICACallback_same protoKeeper.ICACallbackHandler "delegate" failHandler)

/-- C13: when `HasICACallback id` is false the dispatch does not return: the
call of the missing map entry panics, before any handler has run and with the
store as it was. -/
theorem CallICACallback_unregistered (c : ICACallbacks) (ctx : Store) (id : String)
    (packet : Packet) (ack : Option AckResult) (args : Bytes)
    (hno : c.HasICACallback id = false) :
    c.CallICACallback ctx id packet ack args = .panicked ctx := by
  unfold ICACallbacks.HasICACallback at hno
  unfold ICACallbacks.CallICACallback
  cases h : c.icacallbacks id with
  | none => rfl
  | some fn => rw [h] at hno; simp at hno

/-- Witness for C13: `"undelegate"` on a registry that has `"delegate"`
registered. -/
theorem CallICACallback_unregistered_witness :
    (protoKeeper.ICACallbackHandler.AddICACallback "delegate"
      DelegateCallback).HasICACallback "undelegate" = false ∧
    (protoKeeper.ICACallbackHandler.AddICACallback "delegate"
      DelegateCallback).CallICACallback sampleStore
      "undelegate" samplePacket (some sampleAck) sampleArgs = .panicked sampleStore :=
  ⟨by decide,
    CallICACallback_unregistered
      (protoKeeper.ICACallbackHandler.AddICACallback "delegate" DelegateCallback)
      sampleStore "undelegate" samplePacket (some sampleAck) sampleArgs (by decide)⟩

/-- C17 (the code as written): `RegisterICACallbacks` registers under
`"redemption"` the package-level identifier `RedemptionCallback`, which the
sources do not declare (they declare the method of the keeper only). For
whatever handler that identifier denotes, on the registry wired from a fresh
one: `HasICACallback id` is true exactly for `"delegate"` and `"redemption"`
(`"Delegate"` is not registered), the dispatch of `"delegate"` returns what
`DelegateCallback` returns, and the entry for `"redemption"` is that handler, so
that the dispatch of `"redemption"` returns what it returns; nothing in the
wiring ties it to the method `Keeper.RedemptionCallback`. -/
theorem RegisterICACallbacks_registers_both (k : Keeper) (redemptionCallback : ICACallback)
    (id : String) (ctx : Store) (packet : Packet) (ack : Option AckResult) (args : Bytes) :
    ((k.ICACallbackHandler.RegisterICACallbacks redemptionCallback).HasICACallback id = true ↔
      id = "delegate" ∨ id = "redemption") ∧
    (k.ICACallbackHandler.RegisterICACallbacks redemptionCallback).HasICACallback "Delegate" =
      false ∧
    (k.ICACallbackHandler.RegisterICACallbacks redemptionCallback).CallICACallback ctx
        "delegate" packet ack args =
      .returned (DelegateCallback k ctx packet ack args).1
        (DelegateCallback k ctx packet ack args).2 ∧
    (k.ICACallbackHandler.RegisterICACallbacks redemptionCallback).icacallbacks "redemption" =
      some redemptionCallback ∧
    (k.ICACallbackHandler.RegisterICACallbacks redemptionCallback).CallICACallback ctx
        "redemption" packet ack args =
      .returned (redemptionCallback k ctx packet ack args).1
        (redemptionCallback k ctx packet ack args).2 := by
  refine ⟨?_, ?_, rfl, ?_, ?_⟩
  · rw [RegisterICACallbacks_has]
    by_cases hr : id = "redemption"
    · simp [hr]
    · by_cases hd : id = "delegate"
      · simp [hd]
      · simp [hr, hd]
  · rw [RegisterICACallbacks_has]
    decide
  · exact AddICACallback_same _ "redemption" redemptionCallback
  · simp only [ICACallbacks.CallICACallback, ICACallbacks.RegisterICACallbacks,
      AddICACallback_same]
    rfl

/-! ## Delegation handler: decoding and zone lookup -/

/-- C14: with a non-nil acknowledgment, when the argument bytes do not decode
the handler returns the decode error, and when they decode to a host zone id
that names no zone it returns the "host zone not found" error; in both cases
the store is the one it was given. -/
theorem DelegateCallback_decode_or_zone_failure (k : Keeper) (ctx : Store) (packet : Packet)
    (ack : AckResult) (args : Bytes) :
    (∀ err, k.UnmarshalDelegateCallbackArgs args = .error err →
      DelegateCallback k ctx packet (some ack) args = (some err, ctx)) ∧
    (∀ cb, k.UnmarshalDelegateCallbackArgs args = .ok cb →
      GetHostZone ctx cb.hostZoneId = none →
      DelegateCallback k ctx packet (some ack) args =
        (some (Wrap .ErrInvalidRequest "host zone not found"), ctx)) := by
  constructor
  · intro err hd
    simp only [DelegateCallback, hd]
  · intro cb hd hz
    simp only [DelegateCallback, hd, hz]

/-- Witness for C14: bytes cut off inside the first field, and bytes naming the
zone `OSMO`, on the sample store. -/
theorem DelegateCallback_decode_or_zone_failure_witness :
    DelegateCallback protoKeeper sampleStore samplePacket (some sampleAck) [0x0A, 4, 71] =
      (some (protoErr "unexpected EOF"), sampleStore) ∧
    DelegateCallback protoKeeper sampleStore samplePacket (some sampleAck) noZoneArgs =
      (some (Wrap .ErrInvalidRequest "host zone not found"), sampleStore) :=
  ⟨(DelegateCallback_decode_or_zone_failure protoKeeper sampleStore samplePacket sampleAck
      [0x0A, 4, 71]).1 _ rfl,
    (DelegateCallback_decode_or_zone_failure protoKeeper sampleStore samplePacket sampleAck
      noZoneArgs).2 ⟨"OSMO", 1, []⟩ rfl (by decide)⟩

/-! ## Delegation handler: repeated runs -/

/-- With a non-nil acknowledgment, an existing zone and entries that all pass
both checks, the handler writes the zone with the entries applied and removes
the deposit record. -/
theorem DelegateCallback_valid_eq {k : Keeper} {ctx : Store} (packet : Packet) (ack : AckResult)
    {args : Bytes} {cb : types.DelegateCallback} {zone : HostZone}
    (hargs : k.UnmarshalDelegateCallbackArgs args = .ok cb)
    (hzone : GetHostZone ctx cb.hostZoneId = some zone)
    (hamt : ∀ sd ∈ cb.splitDelegations, sd.amount < 2 ^ 63)
    (hval : ∀ sd ∈ cb.splitDelegations, sd.validator ∈ zone.addresses) :
    DelegateCallback k ctx packet (some ack) args =
      (none, RemoveDepositRecord (SetHostZone ctx (applyEntries zone cb.splitDelegations))
        cb.depositRecordId) := by
  have hid : zone.chainId = cb.hostZoneId := GetHostZone_chainId hzone
  have hget : GetHostZone ctx zone.chainId = some zone := by rw [hid]; exact hzone
  rw [DelegateCallback_eq_loop packet ack hargs hzone,
    delegateLoop_valid cb.splitDelegations hget hamt hval]

theorem GetHostZone_RemoveDepositRecord (ctx : Store) (id : Nat) (chainId : String) :
    GetHostZone (RemoveDepositRecord ctx id) chainId = GetHostZone ctx chainId := rfl

/-- C15 (counterexample): on the sample store the first run returns no error,
removes deposit record 1 and leaves the balance 115; the second run on that
store, with the same arguments, returns no error as well and leaves the balance
130, so the store after two runs is not the store after one. -/
theorem DelegateCallback_second_run_credits_again :
    (DelegateCallback protoKeeper sampleStore samplePacket (some sampleAck) sampleArgs).1 =
      none ∧
    (DelegateCallback protoKeeper sampleStore samplePacket (some sampleAck)
      sampleArgs).2.depositRecords 1 = none ∧
    (GetHostZone (DelegateCallback protoKeeper sampleStore samplePacket (some sampleAck)
      sampleArgs).2 "GAIA").map (fun z => z.stakedBal) = some 115 ∧
    (DelegateCallback protoKeeper
      (DelegateCallback protoKeeper sampleStore samplePacket (some sampleAck) sampleArgs).2
      samplePacket (some sampleAck) sampleArgs).1 = none ∧
    (GetHostZone (DelegateCallback protoKeeper
      (DelegateCallback protoKeeper sampleStore samplePacket (some sampleAck) sampleArgs).2
      samplePacket (some sampleAck) sampleArgs).2 "GAIA").map (fun z => z.stakedBal) =
        some 130 ∧
    (DelegateCallback protoKeeper
      (DelegateCallback protoKeeper sampleStore samplePacket (some sampleAck) sampleArgs).2
      samplePacket (some sampleAck) sampleArgs).2 ≠
      (DelegateCallback protoKeeper sampleStore samplePacket (some sampleAck) sampleArgs).2 := by
  refine ⟨by decide, by decide, by decide, by decide, by decide, ?_⟩
  intro h
  have h1 := congrArg (fun s => (GetHostZone s "GAIA").map fun z => z.stakedBal) h
  revert h1
  decide

/-- C15 (amended): the handler never reads the deposit record. With a non-nil
acknowledgment, an existing zone, non-negative amounts and validators of the
zone, a run returns no error and stores the zone with the entries applied, also
when the deposit record is absent; a second run with the same arguments on the
store the first one left (where the deposit record is gone) returns no error
and stores the zone with the entries applied twice, so that every named
validator has grown by twice the amounts assigned to it. -/
theorem DelegateCallback_credits_on_every_run (k : Keeper) (ctx : Store) (packet : Packet)
    (ack : AckResult) (args : Bytes) (cb : types.DelegateCallback) (zone : HostZone)
    (hargs : k.UnmarshalDelegateCallbackArgs args = .ok cb)
    (hzone : GetHostZone ctx cb.hostZoneId = some zone)
    (hamt : ∀ sd ∈ cb.splitDelegations, sd.amount < 2 ^ 63)
    (hval : ∀ sd ∈ cb.splitDelegations, sd.validator ∈ zone.addresses) :
    (ctx.depositRecords cb.depositRecordId = none →
      (DelegateCallback k ctx packet (some ack) args).1 = none ∧
      GetHostZone (DelegateCallback k ctx packet (some ack) args).2 cb.hostZoneId =
        some (applyEntries zone cb.splitDelegations)) ∧
    (DelegateCallback k ctx packet (some ack) args).2.depositRecords cb.depositRecordId =
      none ∧
    (DelegateCallback k (DelegateCallback k ctx packet (some ack) args).2 packet (some ack)
      args).1 = none ∧
    GetHostZone (DelegateCallback k (DelegateCallback k ctx packet (some ack) args).2 packet
      (some ack) args).2 cb.hostZoneId =
        some (applyEntries (applyEntries zone cb.splitDelegations) cb.splitDelegations) ∧
    ∀ addr,
      delegatedAmt
        (applyEntries (applyEntries zone cb.splitDelegations) cb.splitDelegations).validators
        addr =
      (delegatedAmt zone.validators addr).map
        fun d => d + 2 * assignedAmt cb.splitDelegations addr := by
  have hid : zone.chainId = cb.hostZoneId := GetHostZone_chainId hzone
  have hstored : ∀ (c : Store) (z : HostZone), z.chainId = cb.hostZoneId →
      GetHostZone (RemoveDepositRecord (SetHostZone c z) cb.depositRecordId) cb.hostZoneId =
        some z := by
    intro c z hz
    rw [GetHostZone_RemoveDepositRecord, ← hz]
    exact GetHostZone_SetHostZone c z
  have h1 := DelegateCallback_valid_eq packet ack hargs hzone hamt hval
  have hz1 : GetHostZone (DelegateCallback k ctx packet (some ack) args).2 cb.hostZoneId =
      some (applyEntries zone cb.splitDelegations) := by
    rw [h1]
    exact hstored ctx (applyEntries zone cb.splitDelegations)
      (by rw [applyEntries_chainId, hid])
  have hval1 : ∀ sd ∈ cb.splitDelegations,
      sd.validator ∈ (applyEntries zone cb.splitDelegations).addresses := by
    intro sd hsd
    rw [applyEntries_addresses]
    exact hval sd hsd
  have h2 := DelegateCallback_valid_eq packet ack hargs hz1 hamt hval1
  have hz2 : GetHostZone (DelegateCallback k (DelegateCallback k ctx packet (some ack)
      args).2 packet (some ack) args).2 cb.hostZoneId =
      some (applyEntries (applyEntries zone cb.splitDelegations) cb.splitDelegations) := by
    rw [h2]
    exact hstored (DelegateCallback k ctx packet (some ack) args).2
      (applyEntries (applyEntries zone cb.splitDelegations) cb.splitDelegations)
      (by rw [applyEntries_chainId, applyEntries_chainId, hid])
  refine ⟨fun _ => ⟨by rw [h1], hz1⟩, ?_, by rw [h2], hz2, ?_⟩
  · rw [h1]
    simp [RemoveDepositRecord]
  · intro addr
    rw [applyEntries_delegatedAmt, applyEntries_delegatedAmt]
    cases delegatedAmt zone.validators addr with
    | none => rfl
    | some d =>
      simp only [Option.map_some', Option.some.injEq]
      omega

/-- Witness for C15 (amended): the sample store and a list of three entries. -/
theorem DelegateCallback_credits_on_every_run_witness :
    GetHostZone sampleStore sampleCallback.hostZoneId = some sampleZone ∧
    GetHostZone (DelegateCallback protoKeeper
      (DelegateCallback protoKeeper sampleStore samplePacket (some sampleAck) sampleArgs).2
      samplePacket (some sampleAck) sampleArgs).2 sampleCallback.hostZoneId =
        some (applyEntries (applyEntries sampleZone sampleCallback.splitDelegations)
          sampleCallback.splitDelegations) :=
  ⟨by decide,
    (DelegateCallback_credits_on_every_run protoKeeper sampleStore samplePacket sampleAck
      sampleArgs sampleCallback sampleZone rfl (by decide) (by decide) (by decide)).2.2.2.1⟩

/-! ## Signed conversion of the amount -/

/-- C18: for an entry the loop reaches, with a `uint64` amount: the converted
amount is negative exactly when the amount is at least `2^63`; the loop on that
entry alone ends with the "negative balance" error exactly in that case, and
then it ends so whatever entries follow, with the store untouched; and for an
amount below `2^63` the converted amount is the amount itself and the loop goes
on, crediting exactly the amount to the balance and to the validator (or ends
with the validator error when the validator is not in the zone). -/
theorem delegateLoop_signed_conversion (ctx : Store) (zone : HostZone) (sd : SplitDelegation)
    (rest : List SplitDelegation) (hu : sd.amount < 2 ^ 64) :
    (ToInt64 sd.amount < 0 ↔ 2 ^ 63 ≤ sd.amount) ∧
    ((delegateLoop ctx zone [sd]).1 =
        some (Wrap .ErrLogic
          ("Balance to stake was negative: " ++ toString (ToInt64 sd.amount))) ↔
      2 ^ 63 ≤ sd.amount) ∧
    (2 ^ 63 ≤ sd.amount →
      delegateLoop ctx zone (sd :: rest) =
        (some (Wrap .ErrLogic
          ("Balance to stake was negative: " ++ toString (ToInt64 sd.amount))), ctx)) ∧
    (sd.amount < 2 ^ 63 →
      ToInt64 sd.amount = (sd.amount : Int) ∧
      delegateLoop ctx zone (sd :: rest) =
        if sd.validator ∈ zone.addresses then
          delegateLoop (SetHostZone ctx (applyEntry zone sd)) (applyEntry zone sd) rest
        else
          (some (Wrap .ErrValidatorDelegationChg "Failed to add delegation to validator"),
            ctx)) := by
  have hiff : ToInt64 sd.amount < 0 ↔ 2 ^ 63 ≤ sd.amount := by
    have h := ToInt64_nonneg_iff hu
    constructor
    · intro hneg
      by_contra hlt
      have := h.mpr (by omega)
      omega
    · intro hge
      by_contra hnn
      have := h.mp (by omega)
      omega
  have hstep : ∀ rest1 : List SplitDelegation, sd.amount < 2 ^ 63 →
      delegateLoop ctx zone (sd :: rest1) =
        if sd.validator ∈ zone.addresses then
          delegateLoop (SetHostZone ctx (applyEntry zone sd)) (applyEntry zone sd) rest1
        else
          (some (Wrap .ErrValidatorDelegationChg "Failed to add delegation to validator"),
            ctx) := by
    intro rest1 hlt
    by_cases hk : sd.validator ∈ zone.addresses
    · rw [if_pos hk, delegateLoop_cons_valid ctx zone rest1 hlt hk]
    · rw [if_neg hk]
      exact delegateLoop_cons_unknown ctx zone rest1 (by rw [ToInt64_of_lt hlt]; omega) hk
  refine ⟨hiff, ?_, ?_, ?_⟩
  · constructor
    · intro herr
      by_contra hlt
      have hlt1 : sd.amount < 2 ^ 63 := by omega
      rw [hstep [] hlt1] at herr
      by_cases hk : sd.validator ∈ zone.addresses
      · rw [if_pos hk] at herr
        simp [delegateLoop] at herr
      · rw [if_neg hk] at herr
        simp [Wrap] at herr
    · intro hge
      rw [delegateLoop_cons_negative ctx zone [] (hiff.mpr hge)]
  · intro hge
    exact delegateLoop_cons_negative ctx zone rest (hiff.mpr hge)
  · intro hlt
    exact ⟨ToInt64_of_lt hlt, hstep rest hlt⟩

/-- Witness for C18: the amount `2^63` on the sample zone. -/
theorem delegateLoop_signed_conversion_witness :
    ToInt64 9223372036854775808 < 0 ∧
    delegateLoop sampleStore sampleZone [⟨"val1", 9223372036854775808⟩, ⟨"val1", 7⟩] =
      (some (Wrap .ErrLogic
        ("Balance to stake was negative: " ++ toString (ToInt64 9223372036854775808))),
        sampleStore) :=
  have h := delegateLoop_signed_conversion sampleStore sampleZone
    ⟨"val1", 9223372036854775808⟩ [⟨"val1", 7⟩] (by decide)
  ⟨h.1.mpr (by decide), h.2.2.1 (by decide)⟩

/-! ## Redemption handler: claimable records and frame -/

theorem GetUserRedemptionRecord_id {ctx : Store} {id : Nat} {record : UserRedemptionRecord}
    (h : GetUserRedemptionRecord ctx id = some record) : record.id = id := by
  unfold GetUserRedemptionRecord at h
  cases hr : ctx.userRedemptionRecords id with
  | none => rw [hr] at h; simp at h
  | some r =>
    rw [hr] at h
    simp only [Option.map_some', Option.some.injEq] at h
    rw [← h]

theorem SetUserRedemptionRecord_self {ctx : Store} {record : UserRedemptionRecord}
    (h : GetUserRedemptionRecord ctx record.id = some record) :
    SetUserRedemptionRecord ctx record = ctx := by
  have h1 : ctx.userRedemptionRecords record.id =
      some ⟨record.receiver, record.amount, record.isClaimable⟩ := by
    unfold GetUserRedemptionRecord at h
    cases hr : ctx.userRedemptionRecords record.id with
    | none => rw [hr] at h; simp at h
    | some r =>
      rw [hr] at h
      simp only [Option.map_some', Option.some.injEq] at h
      rw [← h]
  unfold SetUserRedemptionRecord
  simp only
  rw [← h1, Function.update_eq_self]

/-- C16 (counterexample): record 7 is already claimable, and the handler, given
a non-nil acknowledgment, returns no error and removes it. -/
theorem RedemptionCallback_removes_claimable_record :
    GetUserRedemptionRecord claimableStore 7 = some ⟨7, "alice", 10, true⟩ ∧
    (RedemptionCallback protoKeeper claimableStore samplePacket (some sampleAck)
      redemptionArgs).1 = none ∧
    GetUserRedemptionRecord (RedemptionCallback protoKeeper claimableStore samplePacket
      (some sampleAck) redemptionArgs).2 7 = none :=
  ⟨by decide, by decide, by decide⟩

/-- C16 (amended): the handler does not read the claimable flag. On a record
that is already claimable, a nil acknowledgment returns the "ack is nil" error
and leaves the store as it was (the record stays claimable), and a non-nil
acknowledgment returns no error and removes the record, as for a pending
one. -/
theorem RedemptionCallback_on_claimable_record (k : Keeper) (ctx : Store) (packet : Packet)
    (ack : AckResult) (args : Bytes) (record : UserRedemptionRecord)
    (hrec : GetUserRedemptionRecord ctx
      (k.UnmarshalRedemptionCallbackArgs args).userRedemptionRecordId = some record)
    (hclaim : record.isClaimable = true) :
    RedemptionCallback k ctx packet none args =
      (some (Wrap .ErrInvalidRequest "ack is nil"), ctx) ∧
    (RedemptionCallback k ctx packet (some ack) args).1 = none ∧
    GetUserRedemptionRecord (RedemptionCallback k ctx packet (some ack) args).2
      (k.UnmarshalRedemptionCallbackArgs args).userRedemptionRecordId = none := by
  have hid := GetUserRedemptionRecord_id hrec
  have hsame : ({ record with isClaimable := true } : UserRedemptionRecord) = record := by
    cases record
    simp only at hclaim
    simp [hclaim]
  have hnil : RedemptionCallback k ctx packet none args =
      (some (Wrap .ErrInvalidRequest "ack is nil"),
        SetUserRedemptionRecord ctx { record with isClaimable := true }) := by
    simp only [RedemptionCallback, hrec]
  have hsome : RedemptionCallback k ctx packet (some ack) args =
      (none, RemoveUserRedemptionRecord ctx
        (k.UnmarshalRedemptionCallbackArgs args).userRedemptionRecordId) := by
    simp only [RedemptionCallback, hrec]
  refine ⟨?_, by rw [hsome], ?_⟩
  · rw [hnil, hsame, SetUserRedemptionRecord_self (by rw [hid]; exact hrec)]
  · rw [hsome]
    simp [GetUserRedemptionRecord, RemoveUserRedemptionRecord]

/-- Witness for C16 (amended): the claimable record 7. -/
theorem RedemptionCallback_on_claimable_record_witness :
    GetUserRedemptionRecord claimableStore 7 = some ⟨7, "alice", 10, true⟩ ∧
    RedemptionCallback protoKeeper claimableStore samplePacket none redemptionArgs =
      (some (Wrap .ErrInvalidRequest "ack is nil"), claimableStore) :=
  ⟨by decide,
    (RedemptionCallback_on_claimable_record protoKeeper claimableStore samplePacket sampleAck
      redemptionArgs ⟨7, "alice", 10, true⟩ (by decide) rfl).1⟩

/-- C19: whatever the store, the acknowledgment and the arguments, the handler
leaves the host zones, the deposit records and every user redemption record
with an id other than the decoded one as they were; when no record has the
decoded id the whole store is as it was; and with a nil acknowledgment the
record with the decoded id is the previous one with the claimable flag set. -/
theorem RedemptionCallback_frame (k : Keeper) (ctx : Store) (packet : Packet)
    (ack : Option AckResult) (args : Bytes) :
    (RedemptionCallback k ctx packet ack args).2.hostZones = ctx.hostZones ∧
    (RedemptionCallback k ctx packet ack args).2.depositRecords = ctx.depositRecords ∧
    (∀ id, id ≠ (k.UnmarshalRedemptionCallbackArgs args).userRedemptionRecordId →
      (RedemptionCallback k ctx packet ack args).2.userRedemptionRecords id =
        ctx.userRedemptionRecords id) ∧
    (GetUserRedemptionRecord ctx
        (k.UnmarshalRedemptionCallbackArgs args).userRedemptionRecordId = none →
      (RedemptionCallback k ctx packet ack args).2 = ctx) ∧
    (∀ record, GetUserRedemptionRecord ctx
        (k.UnmarshalRedemptionCallbackArgs args).userRedemptionRecordId = some record →
      GetUserRedemptionRecord (RedemptionCallback k ctx packet none args).2
        (k.UnmarshalRedemptionCallbackArgs args).userRedemptionRecordId =
          some { record with isClaimable := true }) := by
  have hnone : GetUserRedemptionRecord ctx
      (k.UnmarshalRedemptionCallbackArgs args).userRedemptionRecordId = none →
      ∀ a, RedemptionCallback k ctx packet a args =
        (some (Wrap .ErrRecordNotFound "user redemption record not found"), ctx) := by
    intro h a
    simp only [RedemptionCallback, h]
  have hnil : ∀ record, GetUserRedemptionRecord ctx
      (k.UnmarshalRedemptionCallbackArgs args).userRedemptionRecordId = some record →
      RedemptionCallback k ctx packet none args =
        (some (Wrap .ErrInvalidRequest "ack is nil"),
          SetUserRedemptionRecord ctx { record with isClaimable := true }) := by
    intro record h
    simp only [RedemptionCallback, h]
  have hsome : ∀ record a, GetUserRedemptionRecord ctx
      (k.UnmarshalRedemptionCallbackArgs args).userRedemptionRecordId = some record →
      RedemptionCallback k ctx packet (some a) args =
        (none, RemoveUserRedemptionRecord ctx
          (k.UnmarshalRedemptionCallbackArgs args).userRedemptionRecordId) := by
    intro record a h
    simp only [RedemptionCallback, h]
  have hlast : ∀ record, GetUserRedemptionRecord ctx
      (k.UnmarshalRedemptionCallbackArgs args).userRedemptionRecordId = some record →
      GetUserRedemptionRecord (RedemptionCallback k ctx packet none args).2
        (k.UnmarshalRedemptionCallbackArgs args).userRedemptionRecordId =
          some { record with isClaimable := true } := by
    intro record h
    rw [hnil record h]
    simp [GetUserRedemptionRecord, SetUserRedemptionRecord, GetUserRedemptionRecord_id h]
  cases hrec : GetUserRedemptionRecord ctx
      (k.UnmarshalRedemptionCallbackArgs args).userRedemptionRecordId with
  | none =>
    rw [hnone hrec ack]
    exact ⟨rfl, rfl, fun _ _ => rfl, fun _ => rfl, fun record h => absurd h (by simp)⟩
  | some record =>
    have hid := GetUserRedemptionRecord_id hrec
    refine ⟨?_, ?_, ?_, fun h => absurd h (by simp), fun r h => ?_⟩
    · cases ack with
      | none => rw [hnil record hrec]; rfl
      | some a => rw [hsome record a hrec]; rfl
    · cases ack with
      | none => rw [hnil record hrec]; rfl
      | some a => rw [hsome record a hrec]; rfl
    · intro id hne
      cases ack with
      | none =>
        rw [hnil record hrec]
        simp only [SetUserRedemptionRecord, hid]
        exact Function.update_noteq hne _ _
      | some a =>
        rw [hsome record a hrec]
        simp only [RemoveUserRedemptionRecord]
        exact Function.update_noteq hne _ _
    · rw [hrec] at hlast
      exact hlast r h

/-- Witness for C19: record 7 of the sample store with a nil acknowledgment; the
host zones and the absent record 9 are as before. -/
theorem RedemptionCallback_frame_witness :
    (RedemptionCallback protoKeeper sampleStore samplePacket none redemptionArgs).2.hostZones =
      sampleStore.hostZones ∧
    (RedemptionCallback protoKeeper sampleStore samplePacket none
      redemptionArgs).2.userRedemptionRecords 9 = sampleStore.userRedemptionRecords 9 :=
  have h := RedemptionCallback_frame protoKeeper sampleStore samplePacket none redemptionArgs
  ⟨h.1, h.2.2.1 9 (by decide)⟩

/-! ## Parameters -/

/-- C20 (the code at the failing input): `isCommission` returns no error for
the `uint64` value 100; it accepts exactly the values up to and including 100,
among them the default commission. -/
theorem isCommission_accepts_100 :
    isCommission (.uint64 100) = none ∧
    (∀ v, isCommission (.uint64 v) = none ↔ v ≤ 100) ∧
    isCommission (.uint64 101) = some ("commission must be less than 100: " ++ toString 101) ∧
    isCommission (.uint64 DefaultStrideCommission) = none := by
  refine ⟨by decide, ?_, rfl, by decide⟩
  intro v
  unfold isCommission
  by_cases h : v ≤ 100
  · have h1 : ¬ v > 100 := by omega
    simp [h, h1]
  · have h1 : v > 100 := by omega
    simp [h, h1]

end Stakeibc
